import Mathlib

/-!
Shallow embedding of the SEIHRD microsimulation
(src/SEIHRD-microsimulation.py) and verification of the frozen claims.

Modelling conventions:
* Machine floats are modelled by exact rationals; `np.inf` (the household
  contact-frequency sentinel) is a dedicated constructor of `Freq`.
* `random.randint`, `random.shuffle` and `random.choices` are modelled by
  oracle functions supplying arbitrary draw values; a claim quantified over
  "all random draws" is quantified over all oracles.
* `random.choices(vals, weights)` raises `ValueError` when the weight total
  is not positive, and otherwise returns an entry carrying positive weight;
  the oracle picks which one.
* numpy row indexing `state[d, i]` wraps a negative `d` to `n_days + d` and
  raises `IndexError` outside `[-n_days, n_days)`; `npRowIdx` and `npGet`
  model exactly that.
* A Python exception is the `Res.err` (or `Option.none`) result; the
  unbounded candidate-drawing `while` loop of `assign_external_contacts` is
  run on explicit fuel, `Res.fuelOut` meaning it is still running.
-/

namespace SEIHRD

/-! List indexing helper lemmas (about `List.getD`, `List.set`). -/

/-! Population generator (`count_persons`, `assign_family_ID_and_members`). -/

/-! Contact graph builder (`assign_external_contacts`).

The random draws are an oracle `o : ℕ → ℕ` per person: `o 0` feeds
`randint(0, max_n_contacts)` (modelled as `o 0 % (maxN+1)`); on loop
iteration `t`, `o (2*t+1)` feeds the candidate draw
`randint(0, n_persons-1)` and `o (2*t+2)` the frequency draw
`randint(1, max_freq)` (which raises `ValueError` when `max_freq < 1`).
The unbounded `while` loop runs on fuel (`Res.fuelOut` = still running). -/

/-! Simulation engine (`simulate`). -/

/-! Inversion lemmas for `branchArgs`, `branchSE` and `personUpdate`. -/

/-! Frequency and weight-list arithmetic helpers. -/

/-- SEIHRD stages (class `Status` of the source). -/
inductive Status
  | SUSCEPTIBLE
  | EXPOSED
  | INFECTED
  | HOSPITALISED
  | RECOVERED
  | DEAD
deriving DecidableEq, Repr, Inhabited

/-- A contact frequency: either the `np.inf` household sentinel or a finite
(rational) daily frequency. -/
inductive Freq
  | inf
  | fin (q : ℚ)
deriving DecidableEq, Repr, Inhabited

/-- Addition of frequencies, as Python float addition: `inf` absorbs. -/
def Freq.add : Freq → Freq → Freq
  | .inf, _ => .inf
  | _, .inf => .inf
  | .fin a, .fin b => .fin (a + b)

/-- Python `sum` over a list of frequencies (starting from `0`). -/
def sumFreq (l : List Freq) : Freq := l.foldr Freq.add (.fin 0)

/-- Python `min(1, x)` for a frequency sum: `min(1, inf) = 1`. -/
def min1 : Freq → ℚ
  | .inf => 1
  | .fin q => min 1 q

/-- Result of running a Python fragment: normal return, a raised exception,
or (for the fuelled while loop) still running when the fuel ran out. -/
inductive Res (α : Type)
  | ok (a : α)
  | err
  | fuelOut
deriving DecidableEq, Repr

abbrev Contact := ℕ × Freq

abbrev Contacts := List (List Contact)

abbrev Grid := List (List Status)

/-! Model parameters, literally from the source (0.16 is the float literal
of the source, written as the rational 16/100). -/

def NHS_OVERLOAD : ℕ := 2000

def min_HR_time : ℕ := 14

def min_HD_time : ℕ := 5

def min_IR_time : ℕ := 7

def EI_time : ℕ := 4

def EI_prob : ℚ := 1/2

def ES_prob : ℚ := 1 - EI_prob

def HR : ℚ := 1/35

def IR : ℚ := 1/21

def IH : ℚ := 1/200

def base_HD : ℚ := HR * (16/100)

/-- `count_persons(families)`: the Python
`sum([(i+1)*n for i,n in enumerate(families)])`. -/
def count_persons (families : List ℕ) : ℕ :=
  (families.enum.map (fun p => (p.1 + 1) * p.2)).sum

/-- Recursive form of `count_persons` with the enumeration index explicit. -/
def countFrom : List ℕ → ℕ → ℕ
  | [], _ => 0
  | n :: rest, i => (i + 1) * n + countFrom rest (i + 1)

/-- The contact list of person `p` inside a family block starting at `base`
with `size` members: Python `[c for c in family_contacts if c[0] != p]` where
`family_contacts = [(q, np.inf) for q in range(base, base+size)]`. -/
def familyContactsFor (base size p : ℕ) : List Contact :=
  (((List.range size).map (fun j => (base + j, Freq.inf))).filter
    (fun c => c.1 ≠ p))

/-- The contact lists of one family block (persons `base..base+size-1`). -/
def familyBlockContacts (base size : ℕ) : List (List Contact) :=
  (List.range size).map (fun k => familyContactsFor base size (base + k))

/-- Inner loop of `assign_family_ID_and_members`: `cnt` families, each of
`size` members, starting at family ID `fid` and person ID `pid`.  Returns
the family-ID list and the contact lists for those persons. -/
def buildBlocks (size : ℕ) : ℕ → ℕ → ℕ → List ℕ × List (List Contact)
  | 0, _, _ => ([], [])
  | cnt + 1, fid, pid =>
    let rest := buildBlocks size cnt (fid + 1) (pid + size)
    (List.replicate size fid ++ rest.1, familyBlockContacts pid size ++ rest.2)

/-- Outer loop of `assign_family_ID_and_members` over the family-size list,
`i` being the current index (family size `i+1`). -/
def buildFam : List ℕ → ℕ → ℕ → ℕ → List ℕ × List (List Contact)
  | [], _, _, _ => ([], [])
  | n :: rest, i, fid, pid =>
    let blk := buildBlocks (i + 1) n fid pid
    let rst := buildFam rest (i + 1) (fid + n) (pid + (i + 1) * n)
    (blk.1 ++ rst.1, blk.2 ++ rst.2)

/-- `assign_family_ID_and_members(families)`: family IDs and the
household-only contact lists (household frequency is the `np.inf`
sentinel). -/
def assign_family_ID_and_members (families : List ℕ) :
    List ℕ × List (List Contact) :=
  buildFam families 0 0 0

/-- `persons_contacts[p].append(e)`. -/
def appendAt (cts : Contacts) (p : ℕ) (e : Contact) : Contacts :=
  cts.set p (cts.getD p [] ++ [e])

/-- The candidate-drawing `while c < n_contacts` loop for person `p`.
Arguments after `nC`: fuel, iteration counter `t`, accepted count `c`,
accepted-partner set `s` (`contacts_set`), and the contact lists. -/
def extLoop (o : ℕ → ℕ) (famIDs : List ℕ) (maxFreq p nC : ℕ) :
    ℕ → ℕ → ℕ → List ℕ → Contacts → Res Contacts
  | 0, _, c, _, cts => if nC ≤ c then .ok cts else .fuelOut
  | fuel + 1, t, c, s, cts =>
    if nC ≤ c then .ok cts
    else
      -- p2 = rd.randint(0, n_persons - 1); the loop is only entered with
      -- at least one person, so modular choice models the uniform draw.
      let p2 := o (2*t+1) % cts.length
      if famIDs.getD p2 0 ≠ famIDs.getD p 0 ∧ ¬ p2 ∈ s then
        if maxFreq = 0 then .err  -- rd.randint(1, max_freq) raises
        else
          let f : Freq := .fin (((1 + o (2*t+2) % maxFreq : ℕ) : ℚ) / 7)
          extLoop o famIDs maxFreq p nC fuel (t+1) (c+1) (p2 :: s)
            (appendAt (appendAt cts p (p2, f)) p2 (p, f))
      else extLoop o famIDs maxFreq p nC fuel (t+1) c s cts

/-- The outer loop of `assign_external_contacts` over all persons. -/
def extPersons (extO : ℕ → ℕ → ℕ) (famIDs : List ℕ) (maxN maxFreq fuel : ℕ) :
    List ℕ → Contacts → Res Contacts
  | [], cts => .ok cts
  | p :: rest, cts =>
    match extLoop (extO p) famIDs maxFreq p (extO p 0 % (maxN + 1))
      fuel 0 0 [] cts with
    | .ok cts2 => extPersons extO famIDs maxN maxFreq fuel rest cts2
    | .err => .err
    | .fuelOut => .fuelOut

/-- `assign_external_contacts(persons_contacts, persons_familyID,
max_n_contacts, max_freq)` under the draw oracle `extO` and loop fuel. -/
def assign_external_contacts (cts : Contacts) (famIDs : List ℕ)
    (maxN maxFreq : ℕ) (extO : ℕ → ℕ → ℕ) (fuel : ℕ) : Res Contacts :=
  extPersons extO famIDs maxN maxFreq fuel (List.range cts.length) cts

/-- Pointwise containment of contact lists. -/
def ctsLE (a b : Contacts) : Prop :=
  ∀ p e, e ∈ a.getD p [] → e ∈ b.getD p []

/-- The reciprocity invariant of the external-contact pass: any entry not
present in the original lists has its reciprocal (same frequency) present,
and joins persons of different families. -/
def recipInv (cts0 : Contacts) (famIDs : List ℕ) (cts : Contacts) : Prop :=
  ∀ p q f, (q, f) ∈ cts.getD p [] → (q, f) ∈ cts0.getD p [] ∨
    ((p, f) ∈ cts.getD q [] ∧ famIDs.getD q 0 ≠ famIDs.getD p 0)

/-- Read a status from a row (always in range in the source's loops). -/
def rowGet (row : List Status) (c : ℕ) : Status :=
  row.getD c .SUSCEPTIBLE

/-- numpy row index resolution for `state[d, i]`: a negative `d` wraps to
`n_rows + d`; outside `[-n_rows, n_rows)` it is an `IndexError`. -/
def npRowIdx (nRows : ℕ) (d : ℤ) : Option ℕ :=
  if 0 ≤ d ∧ d < nRows then some d.toNat
  else if d < 0 ∧ 0 ≤ d + nRows then some (d + nRows).toNat
  else none

/-- `state[d, i]` with numpy wrap semantics on the row index. -/
def npGet (grid : Grid) (d : ℤ) (i : ℕ) : Option Status :=
  match npRowIdx grid.length d with
  | some r => (grid.getD r []).get? i
  | none => none

/-- `exposure_probability = min(1, sum(exposure_frequencies))` where
`exposure_frequencies = [freq for c,freq in persons_contacts[i]
if state[day-1,c] == Status.INFECTED]`. -/
def exposure_probability (contacts : List Contact) (prevRow : List Status) :
    ℚ :=
  min1 (sumFreq ((contacts.filter
    (fun c => rowGet prevRow c.1 == Status.INFECTED)).map (fun c => c.2)))

/-- `rd.choices(vals, weights)` under draw oracle value `r`: raises
(`none`) when the weight total is not positive, otherwise returns one of
the entries carrying positive weight, selected by `r`. -/
def choices (vals : List Status) (ws : List ℚ) (r : ℕ) : Option Status :=
  if ws.sum ≤ 0 then none
  else
    ((((vals.zip ws).filter (fun vw => decide (0 < vw.2))).get?
      (r % ((vals.zip ws).filter
        (fun vw => decide (0 < vw.2))).length)).map (fun vw => vw.1))

/-- What the per-person branch of the day loop does: either a
deterministic write (terminal states) or a call of the weighted sampler
with the given values and weights. -/
inductive StepKind
  | det (v : Status)
  | draw (vals : List Status) (ws : List ℚ)
deriving DecidableEq

/-- The exposure probability person `i` gets on day `day`: computed from
their contact list and the previous day's row. -/
def exposureOf (cts : Contacts) (grid : Grid) (day i : ℕ) : ℚ :=
  exposure_probability (cts.getD i []) (grid.getD (day - 1) [])

/-- The source's eligibility test pattern
`day >= min_X_time and state[day - min_X_time, i] == st`. -/
def lookbackIs (grid : Grid) (day back i : ℕ) (st : Status) : Bool :=
  decide (back ≤ day) &&
    decide (npGet grid ((day : ℤ) - (back : ℤ)) i = some st)

/-- Weights of `rd.choices([EXPOSED, SUSCEPTIBLE], ...)`. -/
def weightsSE1 (e : ℚ) : List ℚ := [e, 1 - e]

/-- Weights of `rd.choices([INFECTED, SUSCEPTIBLE, EXPOSED], ...)`. -/
def weightsSE2 (e : ℚ) : List ℚ := [EI_prob, (1 - e) * ES_prob, e * ES_prob]

/-- Weights of `rd.choices([RECOVERED, HOSPITALISED, INFECTED], ...)`. -/
def weightsI (irp : ℚ) : List ℚ := [irp, IH, 1 - (irp + IH)]

/-- Weights of `rd.choices([HOSPITALISED, RECOVERED, DEAD], ...)`. -/
def weightsH (hrp hdp : ℚ) : List ℚ := [1 - (hrp + hdp), hrp, hdp]

/-- The SUSCEPTIBLE/EXPOSED branch: the unguarded incubation lookback
`state[day - EI_time, i]` (`none` = `IndexError`), then one of the two
sampler calls. -/
def branchSE (cts : Contacts) (grid : Grid) (day i : ℕ) : Option StepKind :=
  (npGet grid ((day : ℤ) - (EI_time : ℤ)) i).map (fun look =>
    if look ≠ Status.EXPOSED then
      .draw [.EXPOSED, .SUSCEPTIBLE] (weightsSE1 (exposureOf cts grid day i))
    else
      .draw [.INFECTED, .SUSCEPTIBLE, .EXPOSED]
        (weightsSE2 (exposureOf cts grid day i)))

/-- The body of the per-person branch of `simulate`'s day loop, up to the
sampler call: reads `state[day-1,i]` and branches on it, building the
sampler arguments exactly as the source does.  `HD` is the day's hospital
death probability (computed once per day).  `none` models an
`IndexError` from a wrapped-out-of-range history read. -/
def branchArgs (cts : Contacts) (HD : ℚ) (grid : Grid) (day i : ℕ) :
    Option StepKind :=
  match npGet grid ((day : ℤ) - 1) i with
  | none => none
  | some Status.DEAD => some (.det .DEAD)
  | some Status.RECOVERED => some (.det .RECOVERED)
  | some Status.SUSCEPTIBLE => branchSE cts grid day i
  | some Status.EXPOSED => branchSE cts grid day i
  | some Status.INFECTED =>
    some (.draw [.RECOVERED, .HOSPITALISED, .INFECTED]
      (weightsI (if lookbackIs grid day min_IR_time i .INFECTED
        then IR else 0)))
  | some Status.HOSPITALISED =>
    some (.draw [.HOSPITALISED, .RECOVERED, .DEAD]
      (weightsH (if lookbackIs grid day min_HR_time i .HOSPITALISED
          then HR else 0)
        (if lookbackIs grid day min_HD_time i .HOSPITALISED
          then HD else 0)))

/-- One person's next-day status: the branch body followed by the sampler
call (`r` is the person's draw oracle value). -/
def personUpdate (cts : Contacts) (HD : ℚ) (grid : Grid) (day i r : ℕ) :
    Option Status :=
  match branchArgs cts HD grid day i with
  | none => none
  | some (.det v) => some v
  | some (.draw vals ws) => choices vals ws r

/-- `n_hospitalised = sum(state[day-1] == Status.HOSPITALISED)`. -/
def n_hospitalised (row : List Status) : ℕ :=
  row.count .HOSPITALISED

/-- The day's hospital death probability `HD` (overload rule). -/
def hdFor (row : List Status) : ℚ :=
  if n_hospitalised row < NHS_OVERLOAD then base_HD else 3 * base_HD

/-- `state[day, i] = v` (in-place mutation as functional update). -/
def setGrid (grid : Grid) (day i : ℕ) (v : Status) : Grid :=
  grid.set day ((grid.getD day []).set i v)

/-- The `for i in range(n_persons)` loop of one day. -/
def persLoop (cts : Contacts) (HD : ℚ) (chO : ℕ → ℕ → ℕ) (day : ℕ) :
    List ℕ → Grid → Option Grid
  | [], grid => some grid
  | i :: rest, grid =>
    match personUpdate cts HD grid day i (chO day i) with
    | none => none
    | some v => persLoop cts HD chO day rest (setGrid grid day i v)

/-- One iteration of the day loop: compute the day's `HD` from the
previous day's row, then update every person. -/
def dayUpdate (cts : Contacts) (chO : ℕ → ℕ → ℕ) (nP day : ℕ)
    (grid : Grid) : Option Grid :=
  persLoop cts (hdFor (grid.getD (day - 1) [])) chO day (List.range nP) grid

/-- The `for day in range(1, n_days)` loop, `s` days left to process. -/
def simLoop (cts : Contacts) (chO : ℕ → ℕ → ℕ) (nP : ℕ) :
    ℕ → ℕ → Grid → Option Grid
  | 0, _, grid => some grid
  | s + 1, day, grid =>
    match dayUpdate cts chO nP day grid with
    | none => none
    | some g2 => simLoop cts chO nP s (day + 1) g2

/-- Day-0 row: `state[0, 0:n_init_exposed] = Status.EXPOSED` (numpy slice
assignment, which clamps the slice to the row length) followed by
`rd.shuffle`, modelled by the permutation oracle `σ` (person `j` receives
the pre-shuffle slot `σ j`). -/
def initRow (nP nInit : ℕ) (σ : ℕ → ℕ) : List Status :=
  (List.range nP).map
    (fun j => if σ j < nInit then Status.EXPOSED else Status.SUSCEPTIBLE)

/-- The initial grid: day-0 row plus `n_days - 1` all-zero
(= SUSCEPTIBLE) rows, as allocated by `np.zeros`. -/
def initGrid (nDays nP nInit : ℕ) (σ : ℕ → ℕ) : Grid :=
  initRow nP nInit σ :: List.replicate (nDays - 1) (List.replicate nP Status.SUSCEPTIBLE)

/-- `simulate(n_days, families, n_init_exposed, max_n_contacts, max_freq)`
under the shuffle oracle `σ`, external-contact draw oracle `extO`, sampler
draw oracle `chO` (indexed by day and person) and while-loop fuel.
`n_days = 0` raises in the source (`state[0,:]` of an empty array). -/
def simulate (nDays : ℕ) (families : List ℕ) (nInit maxN maxFreq : ℕ)
    (σ : ℕ → ℕ) (extO : ℕ → ℕ → ℕ) (chO : ℕ → ℕ → ℕ) (fuel : ℕ) :
    Res Grid :=
  if nDays = 0 then .err
  else
    match assign_external_contacts (assign_family_ID_and_members families).2
      (assign_family_ID_and_members families).1 maxN maxFreq extO fuel with
    | .ok cts =>
      match simLoop cts chO (count_persons families) (nDays - 1) 1
        (initGrid nDays (count_persons families) nInit σ) with
      | some g => .ok g
      | none => .err
    | .err => .err
    | .fuelOut => .fuelOut

/-- `count_stock(state, person_status)`: per-day counts of a status. -/
def count_stock (state : Grid) (s : Status) : List ℕ :=
  state.map (fun row => row.count s)

/-- `state[d][i]` with in-range indices. -/
def getS (grid : Grid) (d i : ℕ) : Status :=
  rowGet (grid.getD d []) i

/-- The transition relation actually realised by the code: all declared
edges and self-loops, plus the extra edge SUSCEPTIBLE → INFECTED. -/
def allowedStep : Status → Status → Bool
  | .SUSCEPTIBLE, .SUSCEPTIBLE => true
  | .SUSCEPTIBLE, .EXPOSED => true
  | .SUSCEPTIBLE, .INFECTED => true
  | .EXPOSED, .EXPOSED => true
  | .EXPOSED, .SUSCEPTIBLE => true
  | .EXPOSED, .INFECTED => true
  | .INFECTED, .INFECTED => true
  | .INFECTED, .HOSPITALISED => true
  | .INFECTED, .RECOVERED => true
  | .HOSPITALISED, .HOSPITALISED => true
  | .HOSPITALISED, .RECOVERED => true
  | .HOSPITALISED, .DEAD => true
  | .RECOVERED, .RECOVERED => true
  | .DEAD, .DEAD => true
  | _, _ => false

/-- The transition relation asserted by the specification: the declared
edges SUSCEPTIBLE ↔ EXPOSED, EXPOSED → INFECTED,
INFECTED → {HOSPITALISED, RECOVERED}, HOSPITALISED → {RECOVERED, DEAD},
and self-loops. -/
def declaredEdge : Status → Status → Bool
  | .SUSCEPTIBLE, .EXPOSED => true
  | .EXPOSED, .SUSCEPTIBLE => true
  | .EXPOSED, .INFECTED => true
  | .INFECTED, .HOSPITALISED => true
  | .INFECTED, .RECOVERED => true
  | .HOSPITALISED, .RECOVERED => true
  | .HOSPITALISED, .DEAD => true
  | a, b => a = b

/-- Concrete 13-day single-person run (E S S S I H H H H H D D D). -/
def gridB : Grid :=
  [[.EXPOSED], [.SUSCEPTIBLE], [.SUSCEPTIBLE], [.SUSCEPTIBLE],
   [.INFECTED], [.HOSPITALISED], [.HOSPITALISED], [.HOSPITALISED],
   [.HOSPITALISED], [.HOSPITALISED], [.DEAD], [.DEAD], [.DEAD]]

/-- Concrete 6-day two-person household run. -/
def gridC : Grid :=
  [[.SUSCEPTIBLE, .EXPOSED], [.SUSCEPTIBLE, .SUSCEPTIBLE],
   [.SUSCEPTIBLE, .SUSCEPTIBLE], [.SUSCEPTIBLE, .SUSCEPTIBLE],
   [.SUSCEPTIBLE, .INFECTED], [.EXPOSED, .INFECTED]]

/-- The household-only contact lists of a single family of two. -/
def ctsC : Contacts := [[(1, Freq.inf)], [(0, Freq.inf)]]

/-- The candidate-drawing loop diverges: for every amount of fuel the
pass is still running. -/
def extContactsDiverge (cts0 : Contacts) (famIDs : List ℕ)
    (maxN maxFreq : ℕ) (extO : ℕ → ℕ → ℕ) : Prop :=
  ∀ fuel, assign_external_contacts cts0 famIDs maxN maxFreq extO fuel =
    .fuelOut

theorem getD_append_left {α : Type _} (l l2 : List α) (n : ℕ) (d : α)
    (h : n < l.length) : (l ++ l2).getD n d = l.getD n d := by
  simp [List.getD, List.getElem?_append_left h]

theorem getD_append_right {α : Type _} (l l2 : List α) (n : ℕ) (d : α)
    (h : l.length ≤ n) : (l ++ l2).getD n d = l2.getD (n - l.length) d := by
  simp [List.getD, List.getElem?_append_right h]

theorem getD_oob {α : Type _} (l : List α) (n : ℕ) (d : α)
    (h : l.length ≤ n) : l.getD n d = d := by
  simp [List.getD, List.getElem?_eq_none h]

theorem getD_set_ne {α : Type _} (l : List α) (p q : ℕ) (x : α) (d : α)
    (h : q ≠ p) : (l.set p x).getD q d = l.getD q d := by
  simp [List.getD, List.getElem?_set_ne (fun hh => h hh.symm)]

theorem getD_set_eq {α : Type _} (l : List α) (p : ℕ) (x : α) (d : α)
    (h : p < l.length) : (l.set p x).getD p d = x := by
  simp [List.getD, List.getElem?_set_self', List.getElem?_eq_getElem h]

theorem getD_mem {α : Type _} (l : List α) (n : ℕ) (d : α)
    (h : n < l.length) : l.getD n d ∈ l := by
  simp only [List.getD, List.get?_eq_getElem?, List.getElem?_eq_getElem h,
    Option.getD_some]
  exact List.getElem_mem h

theorem getD_replicate {α : Type _} (n k : ℕ) (x : α) (d : α)
    (h : k < n) : (List.replicate n x).getD k d = x := by
  have := List.mem_replicate.1
    (getD_mem (List.replicate n x) k d (by simpa using h))
  exact this.2

theorem getD_range_map {α : Type _} (n k : ℕ) (f : ℕ → α) (d : α)
    (h : k < n) : ((List.range n).map f).getD k d = f k := by
  simp [List.getD, List.getElem?_map, List.getElem?_range, h]

theorem getD_map_snd {α β : Type _} (l : List α) (f : α → β) (n : ℕ)
    (d : β) (da : α) (h : n < l.length) :
    (l.map f).getD n d = f (l.getD n da) := by
  simp [List.getD, List.getElem?_map, List.getElem?_eq_getElem h]

theorem enumFrom_count (families : List ℕ) :
    ∀ i, ((families.enumFrom i).map (fun p => (p.1 + 1) * p.2)).sum =
      countFrom families i := by
  induction families with
  | nil => intro i; rfl
  | cons n rest ih => intro i; simp [countFrom, List.enumFrom, ih]

theorem count_persons_eq (families : List ℕ) :
    count_persons families = countFrom families 0 := by
  simpa [count_persons, List.enum] using enumFrom_count families 0

theorem buildBlocks_len1 (size : ℕ) :
    ∀ cnt fid pid, (buildBlocks size cnt fid pid).1.length = size * cnt := by
  intro cnt
  induction cnt with
  | zero => intro fid pid; simp [buildBlocks]
  | succ c ih =>
    intro fid pid
    simp [buildBlocks, ih, Nat.mul_succ, Nat.add_comm]

theorem buildBlocks_len2 (size : ℕ) :
    ∀ cnt fid pid, (buildBlocks size cnt fid pid).2.length = size * cnt := by
  intro cnt
  induction cnt with
  | zero => intro fid pid; simp [buildBlocks]
  | succ c ih =>
    intro fid pid
    simp [buildBlocks, familyBlockContacts, ih, Nat.mul_succ, Nat.add_comm]

theorem buildBlocks_ids_ge (size : ℕ) :
    ∀ cnt fid pid x, x ∈ (buildBlocks size cnt fid pid).1 → fid ≤ x := by
  intro cnt
  induction cnt with
  | zero => intro fid pid x hx; simp [buildBlocks] at hx
  | succ c ih =>
    intro fid pid x hx
    simp only [buildBlocks, List.mem_append] at hx
    rcases hx with hx | hx
    · exact le_of_eq (List.mem_replicate.1 hx).2.symm
    · exact le_trans (Nat.le_succ fid) (ih (fid + 1) (pid + size) x hx)

theorem buildBlocks_ids_lt (size : ℕ) :
    ∀ cnt fid pid x, x ∈ (buildBlocks size cnt fid pid).1 → x < fid + cnt := by
  intro cnt
  induction cnt with
  | zero => intro fid pid x hx; simp [buildBlocks] at hx
  | succ c ih =>
    intro fid pid x hx
    simp only [buildBlocks, List.mem_append] at hx
    rcases hx with hx | hx
    · have := (List.mem_replicate.1 hx).2
      omega
    · have := ih (fid + 1) (pid + size) x hx
      omega

theorem buildBlocks_house (size : ℕ) :
    ∀ cnt fid pid t u, t < size * cnt → u < size * cnt → t ≠ u →
    (buildBlocks size cnt fid pid).1.getD t 0 =
      (buildBlocks size cnt fid pid).1.getD u 0 →
    (pid + u, Freq.inf) ∈ (buildBlocks size cnt fid pid).2.getD t [] := by
  intro cnt
  induction cnt with
  | zero => intro fid pid t u ht; omega
  | succ c ih =>
    intro fid pid t u ht hu htu hids
    rw [Nat.mul_succ] at ht hu
    have hrep : (List.replicate size fid).length = size := by simp
    have hblk : (familyBlockContacts pid size).length = size := by
      simp [familyBlockContacts]
    by_cases h1 : t < size
    · by_cases h2 : u < size
      · -- same (first) family block
        have hcts : (buildBlocks size (c + 1) fid pid).2.getD t [] =
            familyContactsFor pid size (pid + t) := by
          show ((familyBlockContacts pid size) ++
            (buildBlocks size c (fid + 1) (pid + size)).2).getD t [] = _
          rw [getD_append_left _ _ _ _ (by omega)]
          show ((List.range size).map
            (fun k => familyContactsFor pid size (pid + k))).getD t [] = _
          exact getD_range_map _ _ _ _ h1
        rw [hcts]
        simp only [familyContactsFor, List.mem_filter, List.mem_map,
          List.mem_range]
        refine ⟨⟨u, h2, rfl⟩, by simpa using fun hh => htu (by omega)⟩
      · -- t in the first block, u in the rest: family IDs differ
        exfalso
        have hids1 : (buildBlocks size (c + 1) fid pid).1.getD t 0 = fid := by
          show ((List.replicate size fid) ++
            (buildBlocks size c (fid + 1) (pid + size)).1).getD t 0 = _
          rw [getD_append_left _ _ _ _ (by omega)]
          exact getD_replicate _ _ _ _ h1
        have hmem : (buildBlocks size (c + 1) fid pid).1.getD u 0 ∈
            (buildBlocks size c (fid + 1) (pid + size)).1 := by
          have : ((List.replicate size fid) ++
              (buildBlocks size c (fid + 1) (pid + size)).1).getD u 0 =
              (buildBlocks size c (fid + 1) (pid + size)).1.getD
                (u - size) 0 := by
            rw [getD_append_right _ _ _ _ (by omega)]
            simp [hrep]
          show (buildBlocks size (c+1) fid pid).1.getD u 0 ∈ _
          have hu2 : u - size < (buildBlocks size c (fid+1) (pid+size)).1.length := by
            rw [buildBlocks_len1]
            have := Nat.mul_succ size c
            omega
          rw [show (buildBlocks size (c+1) fid pid).1 =
            (List.replicate size fid) ++
              (buildBlocks size c (fid + 1) (pid + size)).1 from rfl, this]
          exact getD_mem _ _ _ hu2
        have := buildBlocks_ids_ge size c (fid + 1) (pid + size) _ hmem
        rw [hids1] at hids
        omega
    · by_cases h2 : u < size
      · -- u in the first block, t in the rest: family IDs differ
        exfalso
        have hids2 : (buildBlocks size (c + 1) fid pid).1.getD u 0 = fid := by
          show ((List.replicate size fid) ++
            (buildBlocks size c (fid + 1) (pid + size)).1).getD u 0 = _
          rw [getD_append_left _ _ _ _ (by omega)]
          exact getD_replicate _ _ _ _ h2
        have hmem : (buildBlocks size (c + 1) fid pid).1.getD t 0 ∈
            (buildBlocks size c (fid + 1) (pid + size)).1 := by
          have ht2 : t - size < (buildBlocks size c (fid+1) (pid+size)).1.length := by
            rw [buildBlocks_len1]
            have := Nat.mul_succ size c
            omega
          rw [show (buildBlocks size (c+1) fid pid).1 =
            (List.replicate size fid) ++
              (buildBlocks size c (fid + 1) (pid + size)).1 from rfl,
            getD_append_right _ _ _ _ (by omega)]
          simp only [hrep]
          exact getD_mem _ _ _ ht2
        have := buildBlocks_ids_ge size c (fid + 1) (pid + size) _ hmem
        rw [hids2] at hids
        omega
      · -- both in the rest
        have hmul := Nat.mul_succ size c
        have hids3 :
            (buildBlocks size c (fid + 1) (pid + size)).1.getD (t - size) 0 =
            (buildBlocks size c (fid + 1) (pid + size)).1.getD (u - size) 0 := by
          have e1 : (buildBlocks size (c+1) fid pid).1.getD t 0 =
              (buildBlocks size c (fid + 1) (pid + size)).1.getD (t - size) 0 := by
            rw [show (buildBlocks size (c+1) fid pid).1 =
              (List.replicate size fid) ++
                (buildBlocks size c (fid + 1) (pid + size)).1 from rfl,
              getD_append_right _ _ _ _ (by omega)]
            simp [hrep]
          have e2 : (buildBlocks size (c+1) fid pid).1.getD u 0 =
              (buildBlocks size c (fid + 1) (pid + size)).1.getD (u - size) 0 := by
            rw [show (buildBlocks size (c+1) fid pid).1 =
              (List.replicate size fid) ++
                (buildBlocks size c (fid + 1) (pid + size)).1 from rfl,
              getD_append_right _ _ _ _ (by omega)]
            simp [hrep]
          rw [← e1, ← e2, hids]
        have hres := ih (fid + 1) (pid + size) (t - size) (u - size)
          (by omega) (by omega) (by omega) hids3
        have e3 : (buildBlocks size (c+1) fid pid).2.getD t [] =
            (buildBlocks size c (fid + 1) (pid + size)).2.getD (t - size) [] := by
          rw [show (buildBlocks size (c+1) fid pid).2 =
            (familyBlockContacts pid size) ++
              (buildBlocks size c (fid + 1) (pid + size)).2 from rfl,
            getD_append_right _ _ _ _ (by omega)]
          simp [hblk]
        rw [e3]
        have : pid + size + (u - size) = pid + u := by omega
        rwa [this] at hres

theorem buildFam_len1 : ∀ (fams : List ℕ) (i fid pid : ℕ),
    (buildFam fams i fid pid).1.length = countFrom fams i := by
  intro fams
  induction fams with
  | nil => intro i fid pid; rfl
  | cons n rest ih =>
    intro i fid pid
    show ((buildBlocks (i+1) n fid pid).1 ++ _).length = _
    simp [countFrom, buildBlocks_len1, ih]

theorem buildFam_len2 : ∀ (fams : List ℕ) (i fid pid : ℕ),
    (buildFam fams i fid pid).2.length = countFrom fams i := by
  intro fams
  induction fams with
  | nil => intro i fid pid; rfl
  | cons n rest ih =>
    intro i fid pid
    show ((buildBlocks (i+1) n fid pid).2 ++ _).length = _
    simp [countFrom, buildBlocks_len2, ih]

theorem buildFam_ids_ge : ∀ (fams : List ℕ) (i fid pid x : ℕ),
    x ∈ (buildFam fams i fid pid).1 → fid ≤ x := by
  intro fams
  induction fams with
  | nil => intro i fid pid x hx; simp [buildFam] at hx
  | cons n rest ih =>
    intro i fid pid x hx
    rcases List.mem_append.1 hx with hx | hx
    · exact buildBlocks_ids_ge (i+1) n fid pid x hx
    · have := ih (i+1) (fid + n) (pid + (i+1)*n) x hx
      omega

/-- In the output of `buildFam`, two distinct persons with the same family
ID are household members: each holds the other as an `np.inf` contact. -/
theorem buildFam_house : ∀ (fams : List ℕ) (i fid pid t u : ℕ),
    t < countFrom fams i → u < countFrom fams i → t ≠ u →
    (buildFam fams i fid pid).1.getD t 0 =
      (buildFam fams i fid pid).1.getD u 0 →
    (pid + u, Freq.inf) ∈ (buildFam fams i fid pid).2.getD t [] := by
  intro fams
  induction fams with
  | nil => intro i fid pid t u ht; simp [countFrom] at ht
  | cons n rest ih =>
    intro i fid pid t u ht hu htu hids
    simp only [countFrom] at ht hu
    have hl1 : (buildBlocks (i+1) n fid pid).1.length = (i+1) * n :=
      buildBlocks_len1 _ _ _ _
    have hl2 : (buildBlocks (i+1) n fid pid).2.length = (i+1) * n :=
      buildBlocks_len2 _ _ _ _
    have hsplit1 : (buildFam (n :: rest) i fid pid).1 =
        (buildBlocks (i+1) n fid pid).1 ++
          (buildFam rest (i+1) (fid + n) (pid + (i+1)*n)).1 := rfl
    have hsplit2 : (buildFam (n :: rest) i fid pid).2 =
        (buildBlocks (i+1) n fid pid).2 ++
          (buildFam rest (i+1) (fid + n) (pid + (i+1)*n)).2 := rfl
    by_cases h1 : t < (i+1) * n
    · by_cases h2 : u < (i+1) * n
      · -- both in the head blocks
        rw [hsplit1, getD_append_left _ _ _ _ (by omega),
          getD_append_left _ _ _ _ (by omega)] at hids
        rw [hsplit2, getD_append_left _ _ _ _ (by omega)]
        exact buildBlocks_house (i+1) n fid pid t u h1 h2 htu hids
      · -- t in head, u in rest: IDs are in disjoint ranges
        exfalso
        rw [hsplit1, getD_append_left _ _ _ _ (by omega),
          getD_append_right _ _ _ _ (by omega)] at hids
        have hmt : (buildBlocks (i+1) n fid pid).1.getD t 0 ∈
            (buildBlocks (i+1) n fid pid).1 := getD_mem _ _ _ (by omega)
        have hlt := buildBlocks_ids_lt (i+1) n fid pid _ hmt
        have hmu : (buildFam rest (i+1) (fid + n) (pid + (i+1)*n)).1.getD
            (u - (buildBlocks (i+1) n fid pid).1.length) 0 ∈
            (buildFam rest (i+1) (fid + n) (pid + (i+1)*n)).1 := by
          apply getD_mem
          rw [buildFam_len1]
          omega
        have hge := buildFam_ids_ge rest (i+1) (fid + n) (pid + (i+1)*n) _ hmu
        omega
    · by_cases h2 : u < (i+1) * n
      · -- u in head, t in rest: IDs are in disjoint ranges
        exfalso
        rw [hsplit1, getD_append_right _ _ _ _ (by omega),
          getD_append_left _ _ _ _ (by omega)] at hids
        have hmu : (buildBlocks (i+1) n fid pid).1.getD u 0 ∈
            (buildBlocks (i+1) n fid pid).1 := getD_mem _ _ _ (by omega)
        have hlt := buildBlocks_ids_lt (i+1) n fid pid _ hmu
        have hmt : (buildFam rest (i+1) (fid + n) (pid + (i+1)*n)).1.getD
            (t - (buildBlocks (i+1) n fid pid).1.length) 0 ∈
            (buildFam rest (i+1) (fid + n) (pid + (i+1)*n)).1 := by
          apply getD_mem
          rw [buildFam_len1]
          omega
        have hge := buildFam_ids_ge rest (i+1) (fid + n) (pid + (i+1)*n) _ hmt
        omega
      · -- both in the rest
        rw [hsplit1, getD_append_right _ _ _ _ (by omega),
          getD_append_right _ _ _ _ (by omega), hl1] at hids
        have hres := ih (i+1) (fid + n) (pid + (i+1)*n)
          (t - (i+1)*n) (u - (i+1)*n) (by omega) (by omega) (by omega) hids
        rw [hsplit2, getD_append_right _ _ _ _ (by omega), hl2]
        have : pid + (i+1)*n + (u - (i+1)*n) = pid + u := by omega
        rwa [this] at hres

/-- Household membership for `assign_family_ID_and_members`: distinct
persons with equal family ID hold each other as `np.inf` contacts. -/
theorem assign_family_house (families : List ℕ) (t u : ℕ)
    (ht : t < count_persons families) (hu : u < count_persons families)
    (htu : t ≠ u)
    (hids : (assign_family_ID_and_members families).1.getD t 0 =
      (assign_family_ID_and_members families).1.getD u 0) :
    (u, Freq.inf) ∈ (assign_family_ID_and_members families).2.getD t [] := by
  have := buildFam_house families 0 0 0 t u
    (by rwa [count_persons_eq] at ht) (by rwa [count_persons_eq] at hu)
    htu hids
  simpa using this

theorem ctsLE_refl (a : Contacts) : ctsLE a a := fun _ _ h => h

theorem ctsLE_trans {a b c : Contacts} (h1 : ctsLE a b) (h2 : ctsLE b c) :
    ctsLE a c := fun p e h => h2 p e (h1 p e h)

theorem appendAt_le (cts : Contacts) (p : ℕ) (e : Contact) :
    ctsLE cts (appendAt cts p e) := by
  intro q x hx
  unfold appendAt
  by_cases hq : q = p
  · subst hq
    by_cases hlen : q < cts.length
    · rw [getD_set_eq _ _ _ _ hlen]
      exact List.mem_append_left _ hx
    · rw [List.set_eq_of_length_le (by omega)]
      exact hx
  · rw [getD_set_ne _ _ _ _ _ hq]
    exact hx

theorem appendAt_length (cts : Contacts) (p : ℕ) (e : Contact) :
    (appendAt cts p e).length = cts.length := by
  simp [appendAt]

theorem mem_appendAt {cts : Contacts} {p q : ℕ} {e x : Contact}
    (hx : x ∈ (appendAt cts p e).getD q []) :
    x ∈ cts.getD q [] ∨ (q = p ∧ x = e) := by
  unfold appendAt at hx
  by_cases hq : q = p
  · subst hq
    by_cases hlen : q < cts.length
    · rw [getD_set_eq _ _ _ _ hlen] at hx
      rcases List.mem_append.1 hx with h | h
      · exact Or.inl h
      · exact Or.inr ⟨rfl, by simpa using h⟩
    · rw [List.set_eq_of_length_le (by omega)] at hx
      exact Or.inl hx
  · rw [getD_set_ne _ _ _ _ _ hq] at hx
    exact Or.inl hx

theorem extLoop_length (o : ℕ → ℕ) (famIDs : List ℕ) (maxFreq p nC : ℕ) :
    ∀ fuel t c s cts cts2,
    extLoop o famIDs maxFreq p nC fuel t c s cts = .ok cts2 →
    cts2.length = cts.length := by
  intro fuel
  induction fuel with
  | zero =>
    intro t c s cts cts2 h
    simp only [extLoop] at h
    split at h
    · cases h; rfl
    · cases h
  | succ f ih =>
    intro t c s cts cts2 h
    simp only [extLoop] at h
    split at h
    · cases h; rfl
    · split at h
      · split at h
        · cases h
        · have := ih _ _ _ _ _ h
          rwa [appendAt_length, appendAt_length] at this
      · exact ih _ _ _ _ _ h

theorem extLoop_mono (o : ℕ → ℕ) (famIDs : List ℕ) (maxFreq p nC : ℕ) :
    ∀ fuel t c s cts cts2,
    extLoop o famIDs maxFreq p nC fuel t c s cts = .ok cts2 →
    ctsLE cts cts2 := by
  intro fuel
  induction fuel with
  | zero =>
    intro t c s cts cts2 h
    simp only [extLoop] at h
    split at h
    · cases h; exact ctsLE_refl _
    · cases h
  | succ f ih =>
    intro t c s cts cts2 h
    simp only [extLoop] at h
    split at h
    · cases h; exact ctsLE_refl _
    · split at h
      · split at h
        · cases h
        · exact ctsLE_trans
            (ctsLE_trans (appendAt_le _ _ _) (appendAt_le _ _ _))
            (ih _ _ _ _ _ h)
      · exact ih _ _ _ _ _ h

theorem extPersons_length (extO : ℕ → ℕ → ℕ) (famIDs : List ℕ)
    (maxN maxFreq fuel : ℕ) :
    ∀ l cts cts2, extPersons extO famIDs maxN maxFreq fuel l cts = .ok cts2 →
    cts2.length = cts.length := by
  intro l
  induction l with
  | nil => intro cts cts2 h; cases h; rfl
  | cons q rest ih =>
    intro cts cts2 h
    simp only [extPersons] at h
    split at h
    · rename_i cmid hmid
      rw [ih _ _ h]
      exact extLoop_length _ _ _ _ _ _ _ _ _ _ _ hmid
    · cases h
    · cases h

theorem extPersons_mono (extO : ℕ → ℕ → ℕ) (famIDs : List ℕ)
    (maxN maxFreq fuel : ℕ) :
    ∀ l cts cts2, extPersons extO famIDs maxN maxFreq fuel l cts = .ok cts2 →
    ctsLE cts cts2 := by
  intro l
  induction l with
  | nil => intro cts cts2 h; cases h; exact ctsLE_refl _
  | cons q rest ih =>
    intro cts cts2 h
    simp only [extPersons] at h
    split at h
    · rename_i cmid hmid
      exact ctsLE_trans (extLoop_mono _ _ _ _ _ _ _ _ _ _ _ hmid) (ih _ _ h)
    · cases h
    · cases h

theorem assign_external_mono (cts : Contacts) (famIDs : List ℕ)
    (maxN maxFreq : ℕ) (extO : ℕ → ℕ → ℕ) (fuel : ℕ) (cts2 : Contacts)
    (h : assign_external_contacts cts famIDs maxN maxFreq extO fuel =
      .ok cts2) : ctsLE cts cts2 :=
  extPersons_mono _ _ _ _ _ _ _ _ h

theorem assign_external_length (cts : Contacts) (famIDs : List ℕ)
    (maxN maxFreq : ℕ) (extO : ℕ → ℕ → ℕ) (fuel : ℕ) (cts2 : Contacts)
    (h : assign_external_contacts cts famIDs maxN maxFreq extO fuel =
      .ok cts2) : cts2.length = cts.length :=
  extPersons_length _ _ _ _ _ _ _ _ h

theorem mem_appendAt_self (cts : Contacts) (p : ℕ) (e : Contact)
    (hp : p < cts.length) : e ∈ (appendAt cts p e).getD p [] := by
  unfold appendAt
  rw [getD_set_eq _ _ _ _ hp]
  simp

theorem recipInv_init (cts0 : Contacts) (famIDs : List ℕ) :
    recipInv cts0 famIDs cts0 := fun _ _ _ h => Or.inl h

theorem recipInv_step {cts0 : Contacts} {famIDs : List ℕ} {cts : Contacts}
    {p p2 : ℕ} {f : Freq} (hp : p < cts.length) (hp2 : p2 < cts.length)
    (hg : famIDs.getD p2 0 ≠ famIDs.getD p 0)
    (hInv : recipInv cts0 famIDs cts) :
    recipInv cts0 famIDs (appendAt (appendAt cts p (p2, f)) p2 (p, f)) := by
  intro pp q g hmem
  rcases mem_appendAt hmem with h | hnew
  · rcases mem_appendAt h with h2 | hnew2
    · rcases hInv pp q g h2 with h0 | ⟨hr, hf⟩
      · exact Or.inl h0
      · exact Or.inr ⟨appendAt_le _ _ _ _ _ (appendAt_le _ _ _ _ _ hr), hf⟩
    · -- the freshly initiated entry (p2, f) in row p
      obtain ⟨rfl, he⟩ := hnew2
      injection he with h1 h2
      subst h1
      subst h2
      refine Or.inr ⟨?_, hg⟩
      exact mem_appendAt_self _ _ _ (by rwa [appendAt_length])
  · -- the reciprocating entry (p, f) in row p2
    obtain ⟨rfl, he⟩ := hnew
    injection he with h1 h2
    subst h1
    subst h2
    refine Or.inr ⟨?_, fun hh => hg hh.symm⟩
    exact appendAt_le _ _ _ _ _ (mem_appendAt_self _ _ _ hp)

theorem extLoop_inv (cts0 : Contacts) (o : ℕ → ℕ) (famIDs : List ℕ)
    (maxFreq p nC : ℕ) : ∀ fuel t c s cts cts2, p < cts.length →
    recipInv cts0 famIDs cts →
    extLoop o famIDs maxFreq p nC fuel t c s cts = .ok cts2 →
    recipInv cts0 famIDs cts2 := by
  intro fuel
  induction fuel with
  | zero =>
    intro t c s cts cts2 hp hInv h
    simp only [extLoop] at h
    split at h
    · cases h; exact hInv
    · cases h
  | succ fl ih =>
    intro t c s cts cts2 hp hInv h
    simp only [extLoop] at h
    split at h
    · cases h; exact hInv
    · split at h
      · rename_i hcond
        split at h
        · cases h
        · refine ih _ _ _ _ _ ?_ ?_ h
          · rwa [appendAt_length, appendAt_length]
          · exact recipInv_step hp
              (Nat.mod_lt _ (by omega)) hcond.1 hInv
      · exact ih _ _ _ _ _ hp hInv h

theorem extPersons_inv (cts0 : Contacts) (extO : ℕ → ℕ → ℕ)
    (famIDs : List ℕ) (maxN maxFreq fuel : ℕ) :
    ∀ l cts cts2, (∀ p ∈ l, p < cts.length) →
    recipInv cts0 famIDs cts →
    extPersons extO famIDs maxN maxFreq fuel l cts = .ok cts2 →
    recipInv cts0 famIDs cts2 := by
  intro l
  induction l with
  | nil => intro cts cts2 _ hInv h; cases h; exact hInv
  | cons q rest ih =>
    intro cts cts2 hl hInv h
    simp only [extPersons] at h
    split at h
    · rename_i cmid hmid
      have hlen : cmid.length = cts.length :=
        extLoop_length _ _ _ _ _ _ _ _ _ _ _ hmid
      refine ih _ _ (fun p hp => ?_) ?_ h
      · rw [hlen]; exact hl p (List.mem_cons_of_mem _ hp)
      · exact extLoop_inv cts0 _ _ _ _ _ _ _ _ _ _ _
          (hl q (List.mem_cons_self _ _)) hInv hmid
    · cases h
    · cases h

/-- Reciprocity + different-family + no-self-edge of every external edge
added by `assign_external_contacts`. -/
theorem assign_external_inv (cts0 : Contacts) (famIDs : List ℕ)
    (maxN maxFreq : ℕ) (extO : ℕ → ℕ → ℕ) (fuel : ℕ) (cts2 : Contacts)
    (h : assign_external_contacts cts0 famIDs maxN maxFreq extO fuel =
      .ok cts2) :
    ∀ p q f, (q, f) ∈ cts2.getD p [] → (q, f) ∈ cts0.getD p [] ∨
      ((p, f) ∈ cts2.getD q [] ∧ famIDs.getD q 0 ≠ famIDs.getD p 0 ∧
        q ≠ p) := by
  intro p q f hm
  rcases extPersons_inv cts0 extO famIDs maxN maxFreq fuel _ cts0 cts2
    (fun p hp => List.mem_range.1 hp) (recipInv_init _ _) h p q f hm with
    h0 | ⟨hr, hf⟩
  · exact Or.inl h0
  · exact Or.inr ⟨hr, hf, fun hh => hf (by rw [hh])⟩

theorem extLoop_maxFreq0 (o : ℕ → ℕ) (famIDs : List ℕ) (p nC : ℕ) :
    ∀ fuel t c s cts cts2,
    extLoop o famIDs 0 p nC fuel t c s cts = .ok cts2 → cts2 = cts := by
  intro fuel
  induction fuel with
  | zero =>
    intro t c s cts cts2 h
    simp only [extLoop] at h
    split at h
    · cases h; rfl
    · cases h
  | succ fl ih =>
    intro t c s cts cts2 h
    simp only [extLoop, if_pos rfl] at h
    split at h
    · cases h; rfl
    · split at h
      · cases h
      · exact ih _ _ _ _ _ h

theorem extPersons_maxFreq0 (extO : ℕ → ℕ → ℕ) (famIDs : List ℕ)
    (maxN fuel : ℕ) : ∀ l cts cts2,
    extPersons extO famIDs maxN 0 fuel l cts = .ok cts2 → cts2 = cts := by
  intro l
  induction l with
  | nil => intro cts cts2 h; cases h; rfl
  | cons q rest ih =>
    intro cts cts2 h
    simp only [extPersons] at h
    split at h
    · rename_i cmid hmid
      rw [ih _ _ h]
      exact extLoop_maxFreq0 _ _ _ _ _ _ _ _ _ _ hmid
    · cases h
    · cases h

theorem extLoop_zeroTarget (o : ℕ → ℕ) (famIDs : List ℕ)
    (maxFreq p : ℕ) (fuel t : ℕ) (s : List ℕ) (cts : Contacts) :
    extLoop o famIDs maxFreq p 0 fuel t 0 s cts = .ok cts := by
  cases fuel <;> simp [extLoop]

theorem extPersons_zeroDraws (extO : ℕ → ℕ → ℕ) (famIDs : List ℕ)
    (maxN maxFreq fuel : ℕ) : ∀ l cts,
    (∀ p ∈ l, extO p 0 % (maxN + 1) = 0) →
    extPersons extO famIDs maxN maxFreq fuel l cts = .ok cts := by
  intro l
  induction l with
  | nil => intro cts _; rfl
  | cons q rest ih =>
    intro cts hz
    simp only [extPersons]
    rw [hz q (List.mem_cons_self _ _), extLoop_zeroTarget]
    exact ih cts (fun p hp => hz p (List.mem_cons_of_mem _ hp))

/-- If every person's drawn external-contact count is zero, the pass
returns the contact lists unchanged (for any fuel and any `max_freq`). -/
theorem assign_external_zeroDraws (cts : Contacts) (famIDs : List ℕ)
    (maxN maxFreq : ℕ) (extO : ℕ → ℕ → ℕ) (fuel : ℕ)
    (h : ∀ p, extO p 0 % (maxN + 1) = 0) :
    assign_external_contacts cts famIDs maxN maxFreq extO fuel = .ok cts :=
  extPersons_zeroDraws _ _ _ _ _ _ _ (fun p _ => h p)

theorem getD_singleton_zero (x : ℕ) : ([0] : List ℕ).getD x 0 = 0 := by
  cases x with
  | zero => rfl
  | succ n => cases n <;> rfl

/-- On a single-family population (`famIDs = [0]`) a person whose drawn
contact count is positive can never accept a candidate: the loop runs out
of any amount of fuel. -/
theorem extLoop_single_family (o : ℕ → ℕ) (maxFreq : ℕ) (s : List ℕ)
    (cts : Contacts) : ∀ fuel t,
    extLoop o [0] maxFreq 0 1 fuel t 0 s cts = .fuelOut := by
  intro fuel
  induction fuel with
  | zero => intro t; simp [extLoop]
  | succ fl ih =>
    intro t
    simp only [extLoop]
    rw [if_neg (by omega), if_neg (by simp [getD_singleton_zero])]
    exact ih (t + 1)

theorem setGrid_length (g : Grid) (day i : ℕ) (v : Status) :
    (setGrid g day i v).length = g.length := by
  simp [setGrid]

theorem setGrid_rowlen (g : Grid) (day i : ℕ) (v : Status) (d : ℕ) :
    ((setGrid g day i v).getD d []).length = (g.getD d []).length := by
  by_cases hd : d = day
  · subst hd
    by_cases hl : d < g.length
    · rw [setGrid, getD_set_eq _ _ _ _ hl, List.length_set]
    · rw [setGrid, List.set_eq_of_length_le (le_of_not_lt hl)]
  · rw [setGrid, getD_set_ne _ _ _ _ _ hd]

theorem setGrid_row_ne (g : Grid) (day i : ℕ) (v : Status) (d : ℕ)
    (hd : d ≠ day) : (setGrid g day i v).getD d [] = g.getD d [] := by
  rw [setGrid, getD_set_ne _ _ _ _ _ hd]

theorem setGrid_get (g : Grid) (day i : ℕ) (v : Status)
    (hday : day < g.length) (hi : i < (g.getD day []).length) :
    getS (setGrid g day i v) day i = v := by
  rw [getS, setGrid, getD_set_eq _ _ _ _ hday, rowGet,
    getD_set_eq _ _ _ _ hi]

theorem setGrid_col_ne (g : Grid) (day i : ℕ) (v : Status) (j : ℕ)
    (hj : j ≠ i) : getS (setGrid g day i v) day j = getS g day j := by
  by_cases hl : day < g.length
  · rw [getS, setGrid, getD_set_eq _ _ _ _ hl, rowGet,
      getD_set_ne _ _ _ _ _ hj]
    rfl
  · rw [getS, setGrid, List.set_eq_of_length_le (le_of_not_lt hl)]
    rfl

theorem persLoop_shape (cts : Contacts) (HD : ℚ) (chO : ℕ → ℕ → ℕ)
    (day : ℕ) : ∀ l g g2, persLoop cts HD chO day l g = some g2 →
    g2.length = g.length ∧
      ∀ d, ((g2.getD d []).length = (g.getD d []).length) := by
  intro l
  induction l with
  | nil => intro g g2 h; cases h; exact ⟨rfl, fun _ => rfl⟩
  | cons i rest ih =>
    intro g g2 h
    simp only [persLoop] at h
    split at h
    · cases h
    · have := ih _ _ h
      refine ⟨?_, fun d => ?_⟩
      · rw [this.1, setGrid_length]
      · rw [this.2 d, setGrid_rowlen]

theorem persLoop_row_ne (cts : Contacts) (HD : ℚ) (chO : ℕ → ℕ → ℕ)
    (day : ℕ) : ∀ l g g2, persLoop cts HD chO day l g = some g2 →
    ∀ d, d ≠ day → g2.getD d [] = g.getD d [] := by
  intro l
  induction l with
  | nil => intro g g2 h; cases h; intro d _; rfl
  | cons i rest ih =>
    intro g g2 h d hd
    simp only [persLoop] at h
    split at h
    · cases h
    · rw [ih _ _ h d hd, setGrid_row_ne _ _ _ _ _ hd]

theorem persLoop_col_skip (cts : Contacts) (HD : ℚ) (chO : ℕ → ℕ → ℕ)
    (day : ℕ) : ∀ l g g2 i, i ∉ l →
    persLoop cts HD chO day l g = some g2 →
    getS g2 day i = getS g day i := by
  intro l
  induction l with
  | nil => intro g g2 i _ h; cases h; rfl
  | cons j rest ih =>
    intro g g2 i hi h
    simp only [persLoop] at h
    split at h
    · cases h
    · rw [ih _ _ i (fun hh => hi (List.mem_cons_of_mem _ hh)) h,
        setGrid_col_ne _ _ _ _ _
          (fun hh => hi (by rw [hh]; exact List.mem_cons_self _ _))]

theorem persLoop_spec (cts : Contacts) (HD : ℚ) (chO : ℕ → ℕ → ℕ)
    (day : ℕ) : ∀ l g g2, l.Nodup → day < g.length →
    (∀ i ∈ l, i < (g.getD day []).length) →
    persLoop cts HD chO day l g = some g2 →
    ∀ i ∈ l, ∃ gt, gt.length = g.length ∧
      (∀ d, (gt.getD d []).length = (g.getD d []).length) ∧
      (∀ d, d ≠ day → gt.getD d [] = g.getD d []) ∧
      personUpdate cts HD gt day i (chO day i) = some (getS g2 day i) := by
  intro l
  induction l with
  | nil => intro g g2 _ _ _ _ i hi; cases hi
  | cons j rest ih =>
    intro g g2 hnd hday hrow h i hi
    simp only [persLoop] at h
    split at h
    · cases h
    · rename_i v hup
      rcases List.mem_cons.1 hi with rfl | hmem
      · -- i is the head: the value written sticks to the end of the loop
        refine ⟨g, rfl, fun _ => rfl, fun _ _ => rfl, ?_⟩
        have hskip := persLoop_col_skip cts HD chO day rest _ _ i
          (List.Nodup.not_mem hnd) h
        rw [hskip, setGrid_get _ _ _ _ hday
          (hrow i (List.mem_cons_self _ _))]
        exact hup
      · -- i in the tail: use the IH on the updated grid
        have hrec := ih (setGrid g day j v) g2 (List.Nodup.of_cons hnd)
          (by rwa [setGrid_length])
          (fun q hq => by
            rw [setGrid_rowlen]
            exact hrow q (List.mem_cons_of_mem _ hq)) h i hmem
        obtain ⟨gt, h1, h2, h3, h4⟩ := hrec
        refine ⟨gt, ?_, fun d => ?_, fun d hd => ?_, h4⟩
        · rw [h1, setGrid_length]
        · rw [h2 d, setGrid_rowlen]
        · rw [h3 d hd, setGrid_row_ne _ _ _ _ _ hd]

theorem simLoop_shape (cts : Contacts) (chO : ℕ → ℕ → ℕ) (nP : ℕ) :
    ∀ s day g g2, simLoop cts chO nP s day g = some g2 →
    g2.length = g.length ∧
      ∀ d, ((g2.getD d []).length = (g.getD d []).length) := by
  intro s
  induction s with
  | zero => intro day g g2 h; cases h; exact ⟨rfl, fun _ => rfl⟩
  | succ s2 ih =>
    intro day g g2 h
    simp only [simLoop] at h
    split at h
    · cases h
    · rename_i gmid hmid
      have hm := persLoop_shape _ _ _ _ _ _ _ hmid
      have ht := ih _ _ _ h
      exact ⟨ht.1.trans hm.1, fun d => (ht.2 d).trans (hm.2 d)⟩

theorem simLoop_row_lt (cts : Contacts) (chO : ℕ → ℕ → ℕ) (nP : ℕ) :
    ∀ s day g g2, simLoop cts chO nP s day g = some g2 →
    ∀ d < day, g2.getD d [] = g.getD d [] := by
  intro s
  induction s with
  | zero => intro day g g2 h; cases h; intro d _; rfl
  | succ s2 ih =>
    intro day g g2 h d hd
    simp only [simLoop] at h
    split at h
    · cases h
    · rename_i gmid hmid
      rw [ih _ _ _ h d (by omega),
        persLoop_row_ne _ _ _ _ _ _ _ hmid d (by omega)]

/-- Main run lemma: in a completed day loop, the value of every processed
cell `(t, i)` was produced by `personUpdate` on some intermediate grid
that agrees with the final grid on all rows before `t`, with the day's
`HD` computed from the final (= then-current) row `t-1`. -/
theorem simLoop_spec (cts : Contacts) (chO : ℕ → ℕ → ℕ) (nP : ℕ) :
    ∀ s day g g2, simLoop cts chO nP s day g = some g2 →
    1 ≤ day → day + s ≤ g.length →
    (∀ d, d < g.length → (g.getD d []).length = nP) →
    ∀ t i, day ≤ t → t < day + s → i < nP →
    ∃ gt, gt.length = g.length ∧
      (∀ d, d < g.length → (gt.getD d []).length = nP) ∧
      (∀ d, d < t → gt.getD d [] = g2.getD d []) ∧
      personUpdate cts (hdFor (g2.getD (t - 1) [])) gt t i (chO t i) =
        some (getS g2 t i) := by
  intro s
  induction s with
  | zero => intro day g g2 _ _ _ _ t i h1 h2; omega
  | succ s2 ih =>
    intro day g g2 h hday hlen hrows t i ht1 ht2 hi
    simp only [simLoop] at h
    split at h
    · cases h
    · rename_i gmid hmid
      have hmshape := persLoop_shape _ _ _ _ _ _ _ hmid
      rcases Nat.lt_or_ge day t with hcase | hcase
      · -- t is handled by a later day: invoke the IH
        have := ih (day + 1) gmid g2 h (by omega)
          (by rw [hmshape.1]; omega)
          (fun d hd => by
            rw [hmshape.2 d]
            exact hrows d (by rwa [hmshape.1] at hd))
          t i (by omega) (by omega) hi
        obtain ⟨gt, h1, h2, h3, h4⟩ := this
        refine ⟨gt, h1.trans hmshape.1, fun d hd => ?_, h3, h4⟩
        exact h2 d (by rwa [hmshape.1])
      · -- t = day: this very day's persLoop wrote the cell
        have hteq : t = day := by omega
        subst hteq
        have hspec := persLoop_spec cts (hdFor (g.getD (t - 1) [])) chO t
          (List.range nP) g gmid (List.nodup_range nP) (by omega)
          (fun q hq => by
            rw [hrows t (by omega)]
            exact List.mem_range.1 hq) hmid i (List.mem_range.2 hi)
        obtain ⟨gt, h1, h2, h3, h4⟩ := hspec
        have hrowt : ∀ d, d < t + 1 → g2.getD d [] = gmid.getD d [] :=
          fun d hd => simLoop_row_lt _ _ _ _ _ _ _ h d hd
        refine ⟨gt, h1, ?_, ?_, ?_⟩
        · intro d hd
          rw [h2 d]
          exact hrows d hd
        · intro d hd
          rw [h3 d (by omega), ← persLoop_row_ne _ _ _ _ _ _ _ hmid d
            (by omega), ← hrowt d (by omega)]
        · have hmg : getS gmid t i = getS g2 t i := by
            rw [getS, getS, hrowt t (by omega)]
          have hhd : g.getD (t - 1) [] = g2.getD (t - 1) [] := by
            rw [hrowt (t - 1) (by omega),
              persLoop_row_ne _ _ _ _ _ _ _ hmid (t - 1) (by omega)]
          rw [← hmg, ← hhd]
          exact h4

theorem initRow_length (nP nInit : ℕ) (σ : ℕ → ℕ) :
    (initRow nP nInit σ).length = nP := by
  simp [initRow]

theorem initGrid_length (nDays nP nInit : ℕ) (σ : ℕ → ℕ) (h : 1 ≤ nDays) :
    (initGrid nDays nP nInit σ).length = nDays := by
  simp [initGrid]
  omega

theorem initGrid_rowlen (nDays nP nInit : ℕ) (σ : ℕ → ℕ) (d : ℕ)
    (hd : d < (initGrid nDays nP nInit σ).length) :
    ((initGrid nDays nP nInit σ).getD d []).length = nP := by
  have hlen : (initGrid nDays nP nInit σ).length = 1 + (nDays - 1) := by
    simp only [initGrid, List.length_cons, List.length_replicate]
    omega
  match d with
  | 0 => exact initRow_length nP nInit σ
  | dd + 1 =>
    have hlt : dd < nDays - 1 := by omega
    show ((List.replicate (nDays - 1) (List.replicate nP
      Status.SUSCEPTIBLE)).getD dd []).length = nP
    rw [getD_replicate _ _ _ _ hlt]
    simp

/-- A successful `simulate` run decomposes into a successful
external-contact pass and a completed day loop on `initGrid`. -/
theorem simulate_parts (nDays : ℕ) (families : List ℕ)
    (nInit maxN maxFreq : ℕ) (σ : ℕ → ℕ) (extO chO : ℕ → ℕ → ℕ) (fuel : ℕ)
    (g : Grid)
    (h : simulate nDays families nInit maxN maxFreq σ extO chO fuel =
      .ok g) :
    1 ≤ nDays ∧ ∃ cts,
      assign_external_contacts (assign_family_ID_and_members families).2
        (assign_family_ID_and_members families).1 maxN maxFreq extO fuel =
        .ok cts ∧
      simLoop cts chO (count_persons families) (nDays - 1) 1
        (initGrid nDays (count_persons families) nInit σ) = some g := by
  by_cases h0 : nDays = 0
  · rw [simulate, if_pos h0] at h
    cases h
  · rw [simulate, if_neg h0] at h
    refine ⟨by omega, ?_⟩
    rcases hext : assign_external_contacts
        (assign_family_ID_and_members families).2
        (assign_family_ID_and_members families).1 maxN maxFreq extO fuel with
      cts | _ | _ <;> rw [hext] at h <;> dsimp only at h
    · rcases hsim : simLoop cts chO (count_persons families) (nDays - 1) 1
          (initGrid nDays (count_persons families) nInit σ) with _ | g2 <;>
        rw [hsim] at h <;> dsimp only at h
      · cases h
      · cases h
        exact ⟨cts, rfl, hsim⟩
    · exact absurd h (by simp)
    · exact absurd h (by simp)

/-- Final-grid shape of a successful run. -/
theorem simulate_shape (nDays : ℕ) (families : List ℕ)
    (nInit maxN maxFreq : ℕ) (σ : ℕ → ℕ) (extO chO : ℕ → ℕ → ℕ) (fuel : ℕ)
    (g : Grid)
    (h : simulate nDays families nInit maxN maxFreq σ extO chO fuel =
      .ok g) :
    g.length = nDays ∧
      ∀ d, d < nDays → (g.getD d []).length = count_persons families := by
  obtain ⟨h1, cts, _, hsim⟩ := simulate_parts _ _ _ _ _ _ _ _ _ _ h
  have hshape := simLoop_shape _ _ _ _ _ _ _ hsim
  have hlen := initGrid_length nDays (count_persons families) nInit σ h1
  constructor
  · rw [hshape.1, hlen]
  · intro d hd
    rw [hshape.2 d]
    exact initGrid_rowlen _ _ _ _ _ (by rwa [hlen])

/-- Every processed cell of a successful run is a `personUpdate` value on
an intermediate grid agreeing with the final grid below row `d`. -/
theorem simulate_step (nDays : ℕ) (families : List ℕ)
    (nInit maxN maxFreq : ℕ) (σ : ℕ → ℕ) (extO chO : ℕ → ℕ → ℕ) (fuel : ℕ)
    (g : Grid) (cts : Contacts) (d i : ℕ)
    (h : simulate nDays families nInit maxN maxFreq σ extO chO fuel =
      .ok g)
    (hcts : assign_external_contacts
      (assign_family_ID_and_members families).2
      (assign_family_ID_and_members families).1 maxN maxFreq extO fuel =
      .ok cts)
    (hd1 : 1 ≤ d) (hd2 : d < nDays) (hi : i < count_persons families) :
    ∃ gt, gt.length = nDays ∧
      (∀ dd, dd < nDays → (gt.getD dd []).length = count_persons families) ∧
      (∀ dd, dd < d → gt.getD dd [] = g.getD dd []) ∧
      personUpdate cts (hdFor (g.getD (d - 1) [])) gt d i (chO d i) =
        some (getS g d i) := by
  obtain ⟨h1, cts2, hext, hsim⟩ := simulate_parts _ _ _ _ _ _ _ _ _ _ h
  rw [hcts] at hext
  cases hext
  have hlen := initGrid_length nDays (count_persons families) nInit σ h1
  have := simLoop_spec cts chO (count_persons families) (nDays - 1) 1
    (initGrid nDays (count_persons families) nInit σ) g hsim (le_refl 1)
    (by omega) (fun dd hdd => initGrid_rowlen _ _ _ _ _ hdd)
    d i hd1 (by omega) hi
  obtain ⟨gt, hg1, hg2, hg3, hg4⟩ := this
  refine ⟨gt, by rwa [hlen] at hg1, fun dd hdd => ?_, hg3, hg4⟩
  exact hg2 dd (by rwa [hlen])

theorem get?_eq_getD {α : Type _} (l : List α) (n : ℕ) (d : α)
    (h : n < l.length) : l.get? n = some (l.getD n d) := by
  rw [List.get?_eq_getElem?, List.getElem?_eq_getElem h,
    List.getD_eq_getElem?_getD, List.getElem?_eq_getElem h]
  rfl

theorem npGet_inrange (grid : Grid) (dd i : ℕ) (h1 : dd < grid.length)
    (h2 : i < (grid.getD dd []).length) :
    npGet grid (dd : ℤ) i = some (getS grid dd i) := by
  rw [npGet, npRowIdx, if_pos ⟨Int.ofNat_nonneg dd, by exact_mod_cast h1⟩]
  show ((grid.getD (Int.toNat dd) []).get? i) = some (getS grid dd i)
  rw [Int.toNat_ofNat, getS, rowGet]
  exact get?_eq_getD _ _ _ h2

theorem choices_mem (vals : List Status) (ws : List ℚ) (r : ℕ) (v : Status)
    (h : choices vals ws r = some v) : v ∈ vals := by
  rw [choices] at h
  split at h
  · cases h
  · rcases Option.map_eq_some'.1 h with ⟨vw, hget, hv⟩
    have hmem := List.get?_mem hget
    have hzip := List.mem_filter.1 hmem
    have := List.of_mem_zip hzip.1
    rw [← hv]
    exact this.1

theorem branchArgs_prev_none (cts : Contacts) (HD : ℚ) (grid : Grid)
    (day i : ℕ) (hnp : npGet grid ((day : ℤ) - 1) i = none) :
    branchArgs cts HD grid day i = none := by
  unfold branchArgs
  rw [hnp]

theorem branchArgs_dead (cts : Contacts) (HD : ℚ) (grid : Grid)
    (day i : ℕ) (hnp : npGet grid ((day : ℤ) - 1) i = some .DEAD) :
    branchArgs cts HD grid day i = some (.det .DEAD) := by
  unfold branchArgs
  rw [hnp]

theorem branchArgs_rec (cts : Contacts) (HD : ℚ) (grid : Grid)
    (day i : ℕ) (hnp : npGet grid ((day : ℤ) - 1) i = some .RECOVERED) :
    branchArgs cts HD grid day i = some (.det .RECOVERED) := by
  unfold branchArgs
  rw [hnp]

theorem branchArgs_sus (cts : Contacts) (HD : ℚ) (grid : Grid)
    (day i : ℕ) (hnp : npGet grid ((day : ℤ) - 1) i = some .SUSCEPTIBLE) :
    branchArgs cts HD grid day i = branchSE cts grid day i := by
  unfold branchArgs
  rw [hnp]

theorem branchArgs_exp (cts : Contacts) (HD : ℚ) (grid : Grid)
    (day i : ℕ) (hnp : npGet grid ((day : ℤ) - 1) i = some .EXPOSED) :
    branchArgs cts HD grid day i = branchSE cts grid day i := by
  unfold branchArgs
  rw [hnp]

theorem branchArgs_inf (cts : Contacts) (HD : ℚ) (grid : Grid)
    (day i : ℕ) (hnp : npGet grid ((day : ℤ) - 1) i = some .INFECTED) :
    branchArgs cts HD grid day i =
      some (.draw [.RECOVERED, .HOSPITALISED, .INFECTED]
        (weightsI (if lookbackIs grid day min_IR_time i .INFECTED
          then IR else 0))) := by
  unfold branchArgs
  rw [hnp]

theorem branchArgs_hosp (cts : Contacts) (HD : ℚ) (grid : Grid)
    (day i : ℕ) (hnp : npGet grid ((day : ℤ) - 1) i = some .HOSPITALISED) :
    branchArgs cts HD grid day i =
      some (.draw [.HOSPITALISED, .RECOVERED, .DEAD]
        (weightsH (if lookbackIs grid day min_HR_time i .HOSPITALISED
            then HR else 0)
          (if lookbackIs grid day min_HD_time i .HOSPITALISED
            then HD else 0))) := by
  unfold branchArgs
  rw [hnp]

theorem branchSE_none (cts : Contacts) (grid : Grid) (day i : ℕ)
    (hlook : npGet grid ((day : ℤ) - (EI_time : ℤ)) i = none) :
    branchSE cts grid day i = none := by
  unfold branchSE
  rw [hlook]
  rfl

theorem branchSE_notexp (cts : Contacts) (grid : Grid) (day i : ℕ)
    (look : Status)
    (hlook : npGet grid ((day : ℤ) - (EI_time : ℤ)) i = some look)
    (hne : look ≠ .EXPOSED) :
    branchSE cts grid day i = some (.draw [.EXPOSED, .SUSCEPTIBLE]
      (weightsSE1 (exposureOf cts grid day i))) := by
  unfold branchSE
  rw [hlook, Option.map_some', if_pos hne]

theorem branchSE_exp (cts : Contacts) (grid : Grid) (day i : ℕ)
    (hlook : npGet grid ((day : ℤ) - (EI_time : ℤ)) i = some .EXPOSED) :
    branchSE cts grid day i =
      some (.draw [.INFECTED, .SUSCEPTIBLE, .EXPOSED]
        (weightsSE2 (exposureOf cts grid day i))) := by
  unfold branchSE
  rw [hlook, Option.map_some', if_neg (by simp)]

theorem personUpdate_of_branch_none (cts : Contacts) (HD : ℚ) (grid : Grid)
    (day i r : ℕ) (hba : branchArgs cts HD grid day i = none) :
    personUpdate cts HD grid day i r = none := by
  unfold personUpdate
  rw [hba]

theorem personUpdate_of_det (cts : Contacts) (HD : ℚ) (grid : Grid)
    (day i r : ℕ) (w : Status)
    (hba : branchArgs cts HD grid day i = some (.det w)) :
    personUpdate cts HD grid day i r = some w := by
  unfold personUpdate
  rw [hba]

theorem personUpdate_of_draw (cts : Contacts) (HD : ℚ) (grid : Grid)
    (day i r : ℕ) (vals : List Status) (ws : List ℚ)
    (hba : branchArgs cts HD grid day i = some (.draw vals ws)) :
    personUpdate cts HD grid day i r = choices vals ws r := by
  unfold personUpdate
  rw [hba]

/-- In the S/E branch the sampler value list is one of the two lists of
the source, with the weights built from the person's exposure
probability. -/
theorem personUpdate_SE (cts : Contacts) (HD : ℚ) (grid : Grid)
    (day i r : ℕ) (v : Status)
    (hprev : npGet grid ((day : ℤ) - 1) i = some .SUSCEPTIBLE ∨
      npGet grid ((day : ℤ) - 1) i = some .EXPOSED)
    (h : personUpdate cts HD grid day i r = some v) :
    (personUpdate cts HD grid day i r =
      choices [.EXPOSED, .SUSCEPTIBLE]
        (weightsSE1 (exposureOf cts grid day i)) r) ∨
    (personUpdate cts HD grid day i r =
      choices [.INFECTED, .SUSCEPTIBLE, .EXPOSED]
        (weightsSE2 (exposureOf cts grid day i)) r) := by
  have hba : branchArgs cts HD grid day i = branchSE cts grid day i := by
    rcases hprev with hp | hp
    · exact branchArgs_sus _ _ _ _ _ hp
    · exact branchArgs_exp _ _ _ _ _ hp
  rcases hlook : npGet grid ((day : ℤ) - (EI_time : ℤ)) i with _ | look
  · exfalso
    rw [personUpdate_of_branch_none cts HD grid day i r
      (hba.trans (branchSE_none _ _ _ _ hlook))] at h
    cases h
  · by_cases hne : look = Status.EXPOSED
    · subst hne
      right
      rw [personUpdate_of_draw cts HD grid day i r _ _
        (hba.trans (branchSE_exp _ _ _ _ hlook))]
    · left
      rw [personUpdate_of_draw cts HD grid day i r _ _
        (hba.trans (branchSE_notexp _ _ _ _ _ hlook hne))]

/-- Whatever the oracles and history reads, a `personUpdate` value is an
`allowedStep` successor of the previous-day status. -/
theorem personUpdate_allowed (cts : Contacts) (HD : ℚ) (grid : Grid)
    (day i r : ℕ) (v prev : Status)
    (hnp : npGet grid ((day : ℤ) - 1) i = some prev)
    (h : personUpdate cts HD grid day i r = some v) :
    allowedStep prev v = true := by
  cases prev
  case DEAD =>
    rw [personUpdate_of_det cts HD grid day i r _
      (branchArgs_dead _ _ _ _ _ hnp)] at h
    cases h
    rfl
  case RECOVERED =>
    rw [personUpdate_of_det cts HD grid day i r _
      (branchArgs_rec _ _ _ _ _ hnp)] at h
    cases h
    rfl
  case SUSCEPTIBLE =>
    rcases personUpdate_SE cts HD grid day i r v (Or.inl hnp) h with
      he | he <;> rw [he] at h
    · have hm := choices_mem _ _ _ _ h
      fin_cases hm <;> rfl
    · have hm := choices_mem _ _ _ _ h
      fin_cases hm <;> rfl
  case EXPOSED =>
    rcases personUpdate_SE cts HD grid day i r v (Or.inr hnp) h with
      he | he <;> rw [he] at h
    · have hm := choices_mem _ _ _ _ h
      fin_cases hm <;> rfl
    · have hm := choices_mem _ _ _ _ h
      fin_cases hm <;> rfl
  case INFECTED =>
    rw [personUpdate_of_draw cts HD grid day i r _ _
      (branchArgs_inf _ _ _ _ _ hnp)] at h
    have hm := choices_mem _ _ _ _ h
    fin_cases hm <;> rfl
  case HOSPITALISED =>
    rw [personUpdate_of_draw cts HD grid day i r _ _
      (branchArgs_hosp _ _ _ _ _ hnp)] at h
    have hm := choices_mem _ _ _ _ h
    fin_cases hm <;> rfl

theorem Freq.add_inf (a : Freq) : Freq.add a .inf = .inf := by
  cases a <;> rfl

theorem Freq.inf_add (b : Freq) : Freq.add .inf b = .inf := by
  cases b <;> rfl

theorem sumFreq_inf (l : List Freq) (h : Freq.inf ∈ l) :
    sumFreq l = .inf := by
  induction l with
  | nil => cases h
  | cons x xs ih =>
    rcases List.mem_cons.1 h with rfl | hx
    · exact Freq.inf_add _
    · show Freq.add x (sumFreq xs) = .inf
      rw [ih hx, Freq.add_inf]

theorem min1_le_one (f : Freq) : min1 f ≤ 1 := by
  cases f with
  | inf => exact le_refl 1
  | fin q => exact min_le_left 1 q

theorem exposureOf_le_one (cts : Contacts) (grid : Grid) (day i : ℕ) :
    exposureOf cts grid day i ≤ 1 :=
  min1_le_one _

/-- An infected `np.inf` contact drives the exposure probability to 1. -/
theorem exposure_saturates (contacts : List Contact) (prevRow : List Status)
    (q : ℕ) (hmem : (q, Freq.inf) ∈ contacts)
    (hinf : rowGet prevRow q = .INFECTED) :
    exposure_probability contacts prevRow = 1 := by
  rw [exposure_probability, sumFreq_inf]
  · rfl
  · exact List.mem_map.2 ⟨(q, Freq.inf),
      List.mem_filter.2 ⟨hmem, by simp [hinf]⟩, rfl⟩

theorem list_sum_nonpos (l : List ℚ) (h : ∀ x ∈ l, x ≤ 0) : l.sum ≤ 0 := by
  induction l with
  | nil => simp
  | cons x xs ih =>
    rw [List.sum_cons]
    have h1 := h x (List.mem_cons_self _ _)
    have h2 := ih (fun y hy => h y (List.mem_cons_of_mem _ hy))
    linarith

theorem mem_zip_right {α β : Type _} (w : β) :
    ∀ (vals : List α) (ws : List β), ws.length ≤ vals.length → w ∈ ws →
    ∃ v, (v, w) ∈ vals.zip ws := by
  intro vals
  induction vals with
  | nil =>
    intro ws hlen hw
    cases ws with
    | nil => cases hw
    | cons w0 wr => simp at hlen
  | cons v0 vr ih =>
    intro ws hlen hw
    cases ws with
    | nil => cases hw
    | cons w0 wr =>
      rcases List.mem_cons.1 hw with rfl | hw2
      · exact ⟨v0, List.mem_cons_self _ _⟩
      · obtain ⟨v, hv⟩ := ih wr (by simpa using hlen) hw2
        exact ⟨v, List.mem_cons_of_mem _ hv⟩

/-- With positive total weight the sampler cannot fail. -/
theorem choices_isSome (vals : List Status) (ws : List ℚ) (r : ℕ)
    (hsum : ws.sum = 1) (hlen : ws.length ≤ vals.length) :
    (choices vals ws r).isSome = true := by
  rw [choices, if_neg (by rw [hsum]; norm_num)]
  have hpos : ∃ w ∈ ws, 0 < w := by
    by_contra hc
    push_neg at hc
    have := list_sum_nonpos ws hc
    rw [hsum] at this
    norm_num at this
  obtain ⟨w, hw, hwpos⟩ := hpos
  obtain ⟨v, hv⟩ := mem_zip_right w vals ws hlen hw
  have hmemf : (v, w) ∈ (vals.zip ws).filter (fun vw => decide (0 < vw.2)) :=
    List.mem_filter.2 ⟨hv, by simpa using hwpos⟩
  have hne := List.ne_nil_of_mem hmemf
  have hlt : r % ((vals.zip ws).filter
      (fun vw => decide (0 < vw.2))).length <
      ((vals.zip ws).filter (fun vw => decide (0 < vw.2))).length :=
    Nat.mod_lt _ (List.length_pos.2 hne)
  rw [List.get?_eq_getElem?, List.getElem?_eq_getElem hlt]
  rfl

theorem weightsSE1_ok (e : ℚ) (h0 : 0 ≤ e) (h1 : e ≤ 1) :
    (∀ w ∈ weightsSE1 e, 0 ≤ w) ∧ (weightsSE1 e).sum = 1 ∧
      ∃ w ∈ weightsSE1 e, w ≠ 0 := by
  refine ⟨?_, by simp [weightsSE1], ?_⟩
  · intro w hw
    rcases List.mem_cons.1 hw with rfl | hw
    · exact h0
    · rcases List.mem_cons.1 hw with rfl | hw
      · linarith
      · cases hw
  · by_cases he : e = 0
    · exact ⟨1 - e, by simp [weightsSE1], by rw [he]; norm_num⟩
    · exact ⟨e, by simp [weightsSE1], he⟩

theorem weightsSE2_ok (e : ℚ) (h0 : 0 ≤ e) (h1 : e ≤ 1) :
    (∀ w ∈ weightsSE2 e, 0 ≤ w) ∧ (weightsSE2 e).sum = 1 ∧
      ∃ w ∈ weightsSE2 e, w ≠ 0 := by
  refine ⟨?_, ?_, ?_⟩
  · intro w hw
    rcases List.mem_cons.1 hw with rfl | hw
    · norm_num [EI_prob]
    · rcases List.mem_cons.1 hw with rfl | hw
      · have : (0:ℚ) ≤ ES_prob := by norm_num [ES_prob, EI_prob]
        nlinarith
      · rcases List.mem_cons.1 hw with rfl | hw
        · have : (0:ℚ) ≤ ES_prob := by norm_num [ES_prob, EI_prob]
          nlinarith
        · cases hw
  · show EI_prob + ((1 - e) * ES_prob + (e * ES_prob + 0)) = 1
    rw [ES_prob, EI_prob]
    ring
  · exact ⟨EI_prob, by simp [weightsSE2], by norm_num [EI_prob]⟩

theorem weightsI_ok (irp : ℚ) (h : irp = IR ∨ irp = 0) :
    (∀ w ∈ weightsI irp, 0 ≤ w) ∧ (weightsI irp).sum = 1 ∧
      ∃ w ∈ weightsI irp, w ≠ 0 := by
  have hmem : (1 - (irp + IH)) ∈ weightsI irp := by simp [weightsI]
  have hsum : (weightsI irp).sum = 1 := by
    show irp + (IH + (1 - (irp + IH) + 0)) = 1
    ring
  rcases h with rfl | rfl
  · refine ⟨?_, hsum, ⟨1 - (IR + IH), hmem, by norm_num [IR, IH]⟩⟩
    intro w hw
    simp only [weightsI, List.mem_cons, List.not_mem_nil, or_false] at hw
    rcases hw with rfl | rfl | rfl <;> norm_num [IR, IH]
  · refine ⟨?_, hsum, ⟨1 - (0 + IH), hmem, by norm_num [IH]⟩⟩
    intro w hw
    simp only [weightsI, List.mem_cons, List.not_mem_nil, or_false] at hw
    rcases hw with rfl | rfl | rfl <;> norm_num [IH]

theorem weightsH_ok (hrp hdp : ℚ) (h1 : hrp = HR ∨ hrp = 0)
    (h2 : hdp = base_HD ∨ hdp = 3 * base_HD ∨ hdp = 0) :
    (∀ w ∈ weightsH hrp hdp, 0 ≤ w) ∧ (weightsH hrp hdp).sum = 1 ∧
      ∃ w ∈ weightsH hrp hdp, w ≠ 0 := by
  have hmem : (1 - (hrp + hdp)) ∈ weightsH hrp hdp := by simp [weightsH]
  have harith : ∀ w ∈ weightsH hrp hdp, 0 ≤ w := by
    intro w hw
    simp only [weightsH, List.mem_cons, List.not_mem_nil, or_false] at hw
    rcases h1 with rfl | rfl <;> rcases h2 with rfl | rfl | rfl <;>
      rcases hw with rfl | rfl | rfl <;> norm_num [HR, base_HD]
  refine ⟨harith, ?_, ⟨1 - (hrp + hdp), hmem, ?_⟩⟩
  · show 1 - (hrp + hdp) + (hrp + (hdp + 0)) = 1
    ring
  · rcases h1 with rfl | rfl <;> rcases h2 with rfl | rfl | rfl <;>
      norm_num [HR, base_HD]

/-- Eligibility lookbacks of days `≥ back` read already-final rows: the
test can be phrased on the final grid. -/
theorem lookback_final (g gt : Grid) (nP nDays d back i : ℕ) (st : Status)
    (hg1 : gt.length = nDays)
    (hg2 : ∀ dd, dd < nDays → (gt.getD dd []).length = nP)
    (hg3 : ∀ dd, dd < d → gt.getD dd [] = g.getD dd [])
    (hd2 : d < nDays) (hi : i < nP) (hback : 1 ≤ back) :
    lookbackIs gt d back i st =
      (decide (back ≤ d) && decide (getS g (d - back) i = st)) := by
  unfold lookbackIs
  by_cases hb : back ≤ d
  · have hcast : ((d : ℤ) - (back : ℤ)) = ((d - back : ℕ) : ℤ) := by omega
    have h1 : d - back < gt.length := by omega
    have h2 : i < (gt.getD (d - back) []).length := by
      rw [hg2 (d - back) (by omega)]
      exact hi
    rw [hcast, npGet_inrange gt (d - back) i h1 h2]
    have hrow : getS gt (d - back) i = getS g (d - back) i := by
      rw [getS, getS, hg3 (d - back) (by omega)]
    rw [hrow]
    simp
  · simp [hb]

/-- Bundled cell lemma: the cell `(d, i)` of a successful run was written
by `personUpdate` on an intermediate grid whose previous-day read is the
final grid's previous-day value. -/
theorem simulate_cell (nDays : ℕ) (families : List ℕ)
    (nInit maxN maxFreq : ℕ) (σ : ℕ → ℕ) (extO chO : ℕ → ℕ → ℕ) (fuel : ℕ)
    (g : Grid) (cts : Contacts) (d i : ℕ)
    (h : simulate nDays families nInit maxN maxFreq σ extO chO fuel =
      .ok g)
    (hext : assign_external_contacts
      (assign_family_ID_and_members families).2
      (assign_family_ID_and_members families).1 maxN maxFreq extO fuel =
      .ok cts)
    (hd1 : 1 ≤ d) (hd2 : d < nDays) (hi : i < count_persons families) :
    ∃ gt, gt.length = nDays ∧
      (∀ dd, dd < nDays → (gt.getD dd []).length = count_persons families) ∧
      (∀ dd, dd < d → gt.getD dd [] = g.getD dd []) ∧
      npGet gt ((d : ℤ) - 1) i = some (getS g (d - 1) i) ∧
      personUpdate cts (hdFor (g.getD (d - 1) [])) gt d i (chO d i) =
        some (getS g d i) := by
  obtain ⟨gt, hg1, hg2, hg3, hg4⟩ :=
    simulate_step nDays families nInit maxN maxFreq σ extO chO fuel g cts
      d i h hext hd1 hd2 hi
  refine ⟨gt, hg1, hg2, hg3, ?_, hg4⟩
  have hcast : ((d : ℤ) - 1) = ((d - 1 : ℕ) : ℤ) := by omega
  have h1 : d - 1 < gt.length := by omega
  have h2 : i < (gt.getD (d - 1) []).length := by
    rw [hg2 (d - 1) (by omega)]
    exact hi
  rw [hcast, npGet_inrange gt (d - 1) i h1 h2, getS, getS,
    hg3 (d - 1) (by omega)]

/-- Claim C1, amended: in every run of `simulate`, every observed
day-to-day transition is a declared edge or a self-loop OR the extra
direct edge SUSCEPTIBLE → INFECTED, which the code realises when a person
SUSCEPTIBLE on day `d-1` was EXPOSED on day `d - EI_time` (the incubation
branch tests only that single lookback day); `allowedStep` is exactly
`declaredEdge` plus that one extra edge. -/
theorem claim_C1_transitions (nDays : ℕ) (families : List ℕ)
    (nInit maxN maxFreq : ℕ) (σ : ℕ → ℕ) (extO chO : ℕ → ℕ → ℕ) (fuel : ℕ)
    (g : Grid) (d i : ℕ)
    (h : simulate nDays families nInit maxN maxFreq σ extO chO fuel =
      .ok g)
    (hd1 : 1 ≤ d) (hd2 : d < nDays) (hi : i < count_persons families) :
    allowedStep (getS g (d - 1) i) (getS g d i) = true ∧
      ∀ a b, allowedStep a b =
        (declaredEdge a b || (decide (a = Status.SUSCEPTIBLE) &&
          decide (b = Status.INFECTED))) := by
  obtain ⟨_, cts, hext, _⟩ :=
    simulate_parts nDays families nInit maxN maxFreq σ extO chO fuel g h
  obtain ⟨gt, hg1, hg2, hg3, hprev, hup⟩ :=
    simulate_cell nDays families nInit maxN maxFreq σ extO chO fuel g cts
      d i h hext hd1 hd2 hi
  refine ⟨personUpdate_allowed _ _ _ _ _ _ _ _ hprev hup, ?_⟩
  intro a b
  cases a <;> cases b <;> rfl

/-- Claim C1, counterexample: a concrete run (one person, alone in their
family, initially EXPOSED, no external contacts) performs the direct
transition SUSCEPTIBLE → INFECTED from day 3 to day 4, which is not a
declared edge. -/
theorem claim_C1_counterexample :
    simulate 5 [1] 1 1 1 (fun j => j) (fun _ _ => 0) (fun _ _ => 0) 1 =
      .ok [[.EXPOSED], [.SUSCEPTIBLE], [.SUSCEPTIBLE], [.SUSCEPTIBLE],
        [.INFECTED]] ∧
    getS [[.EXPOSED], [.SUSCEPTIBLE], [.SUSCEPTIBLE], [.SUSCEPTIBLE],
      [.INFECTED]] 3 0 = .SUSCEPTIBLE ∧
    getS [[.EXPOSED], [.SUSCEPTIBLE], [.SUSCEPTIBLE], [.SUSCEPTIBLE],
      [.INFECTED]] 4 0 = .INFECTED ∧
    declaredEdge .SUSCEPTIBLE .INFECTED = false := by
  exact ⟨by with_unfolding_all decide, rfl, rfl, rfl⟩

/-- Claim C1 witness: the amended transition theorem applied to the
concrete 5-day single-person run at day 4. -/
theorem claim_C1_transitions_witness :
    allowedStep (getS [[.EXPOSED], [.SUSCEPTIBLE], [.SUSCEPTIBLE],
      [.SUSCEPTIBLE], [.INFECTED]] 3 0)
      (getS [[.EXPOSED], [.SUSCEPTIBLE], [.SUSCEPTIBLE], [.SUSCEPTIBLE],
        [.INFECTED]] 4 0) = true :=
  (claim_C1_transitions 5 [1] 1 1 1 (fun j => j) (fun _ _ => 0)
    (fun _ _ => 0) 1
    [[.EXPOSED], [.SUSCEPTIBLE], [.SUSCEPTIBLE], [.SUSCEPTIBLE],
      [.INFECTED]] 4 0
    (by with_unfolding_all decide) (by decide) (by decide) (by decide)).1

/-- One-step form of the terminal-state invariant. -/
theorem run_terminal_step (nDays : ℕ) (families : List ℕ)
    (nInit maxN maxFreq : ℕ) (σ : ℕ → ℕ) (extO chO : ℕ → ℕ → ℕ) (fuel : ℕ)
    (g : Grid) (d i : ℕ)
    (h : simulate nDays families nInit maxN maxFreq σ extO chO fuel =
      .ok g)
    (hd1 : 1 ≤ d) (hd2 : d < nDays) (hi : i < count_persons families)
    (hterm : getS g (d - 1) i = .DEAD ∨ getS g (d - 1) i = .RECOVERED) :
    getS g d i = getS g (d - 1) i := by
  obtain ⟨_, cts, hext, _⟩ :=
    simulate_parts nDays families nInit maxN maxFreq σ extO chO fuel g h
  obtain ⟨gt, hg1, hg2, hg3, hprev, hup⟩ :=
    simulate_cell nDays families nInit maxN maxFreq σ extO chO fuel g cts
      d i h hext hd1 hd2 hi
  rcases hterm with ht | ht <;> rw [ht] at hprev ⊢
  · rw [personUpdate_of_det _ _ _ _ _ _ _
      (branchArgs_dead _ _ _ _ _ hprev)] at hup
    exact (Option.some.inj hup).symm
  · rw [personUpdate_of_det _ _ _ _ _ _ _
      (branchArgs_rec _ _ _ _ _ hprev)] at hup
    exact (Option.some.inj hup).symm

/-- Claim C2: RECOVERED and DEAD are terminal: if a person is DEAD or
RECOVERED on day `d-1` of a successful run, their status is unchanged on
every later day `d2` of the grid. -/
theorem claim_C2_terminal (nDays : ℕ) (families : List ℕ)
    (nInit maxN maxFreq : ℕ) (σ : ℕ → ℕ) (extO chO : ℕ → ℕ → ℕ) (fuel : ℕ)
    (g : Grid) (d d2 i : ℕ)
    (h : simulate nDays families nInit maxN maxFreq σ extO chO fuel =
      .ok g)
    (hd1 : 1 ≤ d) (hdd : d - 1 ≤ d2) (hd2 : d2 < nDays)
    (hi : i < count_persons families)
    (hterm : getS g (d - 1) i = .DEAD ∨ getS g (d - 1) i = .RECOVERED) :
    getS g d2 i = getS g (d - 1) i := by
  revert hd2
  induction d2, hdd using Nat.le_induction with
  | base => intro _; rfl
  | succ n hn ih =>
    intro hlt
    have hrec := ih (by omega)
    have hstep := run_terminal_step nDays families nInit maxN maxFreq σ
      extO chO fuel g (n + 1) i h (by omega) hlt hi
      (by
        show getS g (n + 1 - 1) i = _ ∨ getS g (n + 1 - 1) i = _
        rw [show n + 1 - 1 = n from rfl, hrec]
        exact hterm)
    rw [show n + 1 - 1 = n from rfl] at hstep
    rw [hstep, hrec]

/-- Claim C2 witness: in the concrete 13-day single-person run the person
is DEAD on day 10 and stays DEAD on day 12. -/
theorem claim_C2_terminal_witness :
    getS [[.EXPOSED], [.SUSCEPTIBLE], [.SUSCEPTIBLE], [.SUSCEPTIBLE],
      [.INFECTED], [.HOSPITALISED], [.HOSPITALISED], [.HOSPITALISED],
      [.HOSPITALISED], [.HOSPITALISED], [.DEAD], [.DEAD], [.DEAD]] 12 0 =
    getS [[.EXPOSED], [.SUSCEPTIBLE], [.SUSCEPTIBLE], [.SUSCEPTIBLE],
      [.INFECTED], [.HOSPITALISED], [.HOSPITALISED], [.HOSPITALISED],
      [.HOSPITALISED], [.HOSPITALISED], [.DEAD], [.DEAD], [.DEAD]] 10 0 :=
  claim_C2_terminal 13 [1] 1 1 1 (fun j => j) (fun _ _ => 0)
    (fun d _ => if d = 10 then 1 else 0) 1
    [[.EXPOSED], [.SUSCEPTIBLE], [.SUSCEPTIBLE], [.SUSCEPTIBLE],
      [.INFECTED], [.HOSPITALISED], [.HOSPITALISED], [.HOSPITALISED],
      [.HOSPITALISED], [.HOSPITALISED], [.DEAD], [.DEAD], [.DEAD]]
    11 12 0 (by with_unfolding_all decide) (by decide) (by decide)
    (by decide) (by decide) (Or.inl (by rfl))

/-- Claim C3 evaluation (code bug): the EXPOSED lookback
`state[day - EI_time, i]` is unguarded, so at `n_days = 2`, day 1 the
index `1 - 4 = -3` is out of range for the 2-row grid and the run raises
`IndexError` (`Res.err`); and in a 5-row grid the same index wraps to the
future row 2 instead of a row `≤ day - 1`. -/
theorem claim_C3_lookback :
    simulate 2 [1] 0 1 1 (fun j => j) (fun _ _ => 0) (fun _ _ => 0) 1 =
      Res.err ∧
    npRowIdx 2 ((1 : ℤ) - (EI_time : ℤ)) = none ∧
    npRowIdx 5 ((1 : ℤ) - (EI_time : ℤ)) = some 2 := by
  exact ⟨by with_unfolding_all decide, by decide, by decide⟩

/-- Claim C4: for a SUSCEPTIBLE/EXPOSED person the transition draw uses
weights built from
`exposure_probability = min(1, Σ frequency over contacts with an INFECTED
partner on day d-1)` evaluated on the final grid's day `d-1` row; and when
any same-family co-member is INFECTED on day `d-1`, that probability
equals exactly 1 (the household `np.inf` sentinel saturates the sum). -/
theorem claim_C4_exposure (nDays : ℕ) (families : List ℕ)
    (nInit maxN maxFreq : ℕ) (σ : ℕ → ℕ) (extO chO : ℕ → ℕ → ℕ) (fuel : ℕ)
    (g : Grid) (cts : Contacts) (d i : ℕ)
    (h : simulate nDays families nInit maxN maxFreq σ extO chO fuel =
      .ok g)
    (hext : assign_external_contacts
      (assign_family_ID_and_members families).2
      (assign_family_ID_and_members families).1 maxN maxFreq extO fuel =
      .ok cts)
    (hd1 : 1 ≤ d) (hd2 : d < nDays) (hi : i < count_persons families)
    (hstat : getS g (d - 1) i = .SUSCEPTIBLE ∨
      getS g (d - 1) i = .EXPOSED) :
    (some (getS g d i) = choices [.EXPOSED, .SUSCEPTIBLE]
        (weightsSE1 (exposure_probability (cts.getD i [])
          (g.getD (d - 1) []))) (chO d i) ∨
     some (getS g d i) = choices [.INFECTED, .SUSCEPTIBLE, .EXPOSED]
        (weightsSE2 (exposure_probability (cts.getD i [])
          (g.getD (d - 1) []))) (chO d i)) ∧
    (∀ q, q < count_persons families → q ≠ i →
      (assign_family_ID_and_members families).1.getD q 0 =
        (assign_family_ID_and_members families).1.getD i 0 →
      getS g (d - 1) q = .INFECTED →
      exposure_probability (cts.getD i []) (g.getD (d - 1) []) = 1) := by
  obtain ⟨gt, hg1, hg2, hg3, hprev, hup⟩ :=
    simulate_cell nDays families nInit maxN maxFreq σ extO chO fuel g cts
      d i h hext hd1 hd2 hi
  constructor
  · have hprev2 : npGet gt ((d : ℤ) - 1) i = some .SUSCEPTIBLE ∨
        npGet gt ((d : ℤ) - 1) i = some .EXPOSED := by
      rcases hstat with hs | hs
      · left
        rw [hprev, hs]
      · right
        rw [hprev, hs]
    have hse := personUpdate_SE cts (hdFor (g.getD (d - 1) [])) gt d i
      (chO d i) (getS g d i) hprev2 hup
    have hexp : exposureOf cts gt d i =
        exposure_probability (cts.getD i []) (g.getD (d - 1) []) := by
      rw [exposureOf, hg3 (d - 1) (by omega)]
    rcases hse with hh | hh
    · left
      rw [← hup, hh, hexp]
    · right
      rw [← hup, hh, hexp]
  · intro q hq hqi hfid hinf
    have hhouse := assign_family_house families i q hi hq
      (fun he => hqi he.symm) hfid.symm
    have hmem := assign_external_mono _ _ _ _ _ _ _ hext i
      (q, Freq.inf) hhouse
    exact exposure_saturates _ _ q hmem hinf

/-- Claim C4 witness: in the concrete two-person household run, person 1
is INFECTED on day 4, so person 0's exposure probability on day 5 is
exactly 1. -/
theorem claim_C4_exposure_witness :
    exposure_probability (ctsC.getD 0 []) (gridC.getD 4 []) = 1 := by
  have hc := claim_C4_exposure 6 [0, 1] 1 1 1 (fun j => 1 - j)
    (fun _ _ => 0) (fun d i => if d = 5 ∧ i = 1 then 1 else 0) 1
    gridC ctsC 5 0
    (by with_unfolding_all decide) (by with_unfolding_all decide)
    (by decide) (by decide) (by decide) (Or.inl (by rfl))
  exact hc.2 1 (by decide) (by decide) (by decide) (by rfl)

theorem ite_decide_and {α : Type _} (A B : Prop) [Decidable A]
    [Decidable B] (x y : α) :
    (if (decide A && decide B : Bool) then x else y) =
      if A ∧ B then x else y := by
  by_cases hA : A <;> by_cases hB : B <;> simp [hA, hB]

/-- Claim C5: the day's hospital death probability is `base_HD = HR*0.16`
when fewer than `NHS_OVERLOAD = 2000` persons were HOSPITALISED on day
`d-1` and `3*base_HD` otherwise, and it enters a hospitalised person's
draw only when `d ≥ min_HD_time = 5` and the person was HOSPITALISED at
day `d - min_HD_time`; otherwise that person's death weight is 0. -/
theorem claim_C5_overload (nDays : ℕ) (families : List ℕ)
    (nInit maxN maxFreq : ℕ) (σ : ℕ → ℕ) (extO chO : ℕ → ℕ → ℕ) (fuel : ℕ)
    (g : Grid) (cts : Contacts) (d i : ℕ)
    (h : simulate nDays families nInit maxN maxFreq σ extO chO fuel =
      .ok g)
    (hext : assign_external_contacts
      (assign_family_ID_and_members families).2
      (assign_family_ID_and_members families).1 maxN maxFreq extO fuel =
      .ok cts)
    (hd1 : 1 ≤ d) (hd2 : d < nDays) (hi : i < count_persons families)
    (hstat : getS g (d - 1) i = .HOSPITALISED) :
    NHS_OVERLOAD = 2000 ∧ min_HD_time = 5 ∧ base_HD = HR * (16/100) ∧
    some (getS g d i) =
      choices [.HOSPITALISED, .RECOVERED, .DEAD]
        (weightsH
          (if min_HR_time ≤ d ∧ getS g (d - min_HR_time) i = .HOSPITALISED
            then HR else 0)
          (if min_HD_time ≤ d ∧ getS g (d - min_HD_time) i = .HOSPITALISED
            then (if n_hospitalised (g.getD (d - 1) []) < NHS_OVERLOAD
              then base_HD else 3 * base_HD) else 0))
        (chO d i) := by
  obtain ⟨gt, hg1, hg2, hg3, hprev, hup⟩ :=
    simulate_cell nDays families nInit maxN maxFreq σ extO chO fuel g cts
      d i h hext hd1 hd2 hi
  rw [hstat] at hprev
  rw [personUpdate_of_draw _ _ _ _ _ _ _ _
    (branchArgs_hosp _ _ _ _ _ hprev)] at hup
  rw [lookback_final g gt (count_persons families) nDays d min_HR_time i
      .HOSPITALISED hg1 hg2 hg3 hd2 hi (by decide),
    lookback_final g gt (count_persons families) nDays d min_HD_time i
      .HOSPITALISED hg1 hg2 hg3 hd2 hi (by decide),
    ite_decide_and, ite_decide_and] at hup
  refine ⟨rfl, rfl, rfl, ?_⟩
  rw [← hup]
  rfl

/-- Claim C5 witness: in the concrete 13-day run, at day 10 the person
(HOSPITALISED since day 5, in a hospital with 1 < 2000 patients) drew
DEAD from the weights gated by the `d - min_HD_time` lookback. -/
theorem claim_C5_overload_witness :
    some (getS gridB 10 0) =
      choices [.HOSPITALISED, .RECOVERED, .DEAD]
        (weightsH
          (if min_HR_time ≤ 10 ∧ getS gridB (10 - min_HR_time) 0 =
              .HOSPITALISED then HR else 0)
          (if min_HD_time ≤ 10 ∧ getS gridB (10 - min_HD_time) 0 =
              .HOSPITALISED
            then (if n_hospitalised (gridB.getD 9 []) < NHS_OVERLOAD
              then base_HD else 3 * base_HD) else 0))
        ((fun dd (_ : ℕ) => if dd = 10 then 1 else 0) 10 0) :=
  (claim_C5_overload 13 [1] 1 1 1 (fun j => j) (fun _ _ => 0)
    (fun dd _ => if dd = 10 then 1 else 0) 1 gridB [[]] 10 0
    (by with_unfolding_all decide) (by with_unfolding_all decide)
    (by decide) (by decide) (by decide) (by rfl)).2.2.2

/-- Claim C6: after `assign_external_contacts` returns, every contact
entry that was not already in the input lists has its reciprocal entry
with the identical frequency in the partner's list, joins two different
families, and is never a self-edge. -/
theorem claim_C6_reciprocity (cts0 : Contacts) (famIDs : List ℕ)
    (maxN maxFreq : ℕ) (extO : ℕ → ℕ → ℕ) (fuel : ℕ) (cts2 : Contacts)
    (h : assign_external_contacts cts0 famIDs maxN maxFreq extO fuel =
      .ok cts2) :
    ∀ p q f, (q, f) ∈ cts2.getD p [] → (q, f) ∈ cts0.getD p [] ∨
      ((p, f) ∈ cts2.getD q [] ∧ famIDs.getD q 0 ≠ famIDs.getD p 0 ∧
        q ≠ p) :=
  assign_external_inv cts0 famIDs maxN maxFreq extO fuel cts2 h

/-- Claim C6 witness: a concrete pass over two one-person families in
which person 0 initiates one contact to person 1 with frequency 2/7. -/
theorem claim_C6_reciprocity_witness :
    ((1 : ℕ), Freq.fin (2/7)) ∈ ([[], []] : Contacts).getD 0 [] ∨
    (((0 : ℕ), Freq.fin (2/7)) ∈
        ([[(1, Freq.fin (2/7))], [(0, Freq.fin (2/7))]] :
          Contacts).getD 1 [] ∧
      ([0, 1] : List ℕ).getD 1 0 ≠ ([0, 1] : List ℕ).getD 0 0 ∧
      (1 : ℕ) ≠ 0) :=
  claim_C6_reciprocity [[], []] [0, 1] 1 7
    (fun p _ => if p = 0 then 1 else 0) 5
    [[(1, Freq.fin (2/7))], [(0, Freq.fin (2/7))]]
    (by with_unfolding_all decide) 0 1 (Freq.fin (2/7))
    (by with_unfolding_all decide)

/-- Claim C7 counterexample: on the population of one single-person
family (`families = [1]`), with positive `max_n_contacts` and `max_freq`,
the draw sequence that always returns 1 makes the candidate-drawing
`while` loop run forever: no candidate is ever in a different family. -/
theorem claim_C7_counterexample :
    extContactsDiverge (assign_family_ID_and_members [1]).2
      (assign_family_ID_and_members [1]).1 1 1 (fun _ _ => 1) := by
  intro fuel
  show (match extLoop ((fun (_ _ : ℕ) => 1) 0) [0] 1 0
      ((fun (_ _ : ℕ) => 1) 0 0 % (1 + 1)) fuel 0 0 [] [[]] with
    | Res.ok cmid => extPersons (fun _ _ => 1) [0] 1 1 fuel [] cmid
    | Res.err => Res.err
    | Res.fuelOut => Res.fuelOut) = Res.fuelOut
  rw [show ((fun (_ _ : ℕ) => 1) 0 0 % (1 + 1)) = 1 from rfl,
    extLoop_single_family]

/-- Claim C7, amended: termination is not guaranteed for every draw
sequence; it is guaranteed (with the contact lists returned unchanged,
for any fuel) whenever every person's drawn external-contact count is
zero. -/
theorem claim_C7_terminating (cts : Contacts) (famIDs : List ℕ)
    (maxN maxFreq : ℕ) (extO : ℕ → ℕ → ℕ) (fuel : ℕ)
    (h : ∀ p, extO p 0 % (maxN + 1) = 0) :
    assign_external_contacts cts famIDs maxN maxFreq extO fuel = .ok cts :=
  assign_external_zeroDraws cts famIDs maxN maxFreq extO fuel h

/-- Claim C7 witness: with all-zero draws the pass returns at once. -/
theorem claim_C7_terminating_witness :
    assign_external_contacts [[], []] [0, 1] 3 2 (fun _ _ => 0) 7 =
      .ok [[], []] :=
  claim_C7_terminating [[], []] [0, 1] 3 2 (fun _ _ => 0) 7 (fun _ => rfl)

/-- Claim C8: every weight list handed to the weighted sampler by any of
the four status branches (with the fixed parameter-table values, a day
`HD` of `base_HD` or `3*base_HD`, and a non-negative exposure
probability, which is never above 1) has only non-negative entries, sums
to exactly 1 (hence is not all zero), and the sampler's zero-total error
case is unreachable. -/
theorem claim_C8_weights (cts : Contacts) (HDv : ℚ) (grid : Grid)
    (day i : ℕ) (vals : List Status) (ws : List ℚ)
    (hHD : HDv = base_HD ∨ HDv = 3 * base_HD)
    (he : 0 ≤ exposureOf cts grid day i)
    (hba : branchArgs cts HDv grid day i = some (.draw vals ws)) :
    (∀ w ∈ ws, 0 ≤ w) ∧ ws.sum = 1 ∧ (∃ w ∈ ws, w ≠ 0) ∧
      ∀ r, (choices vals ws r).isSome = true := by
  have hmain : (∀ w ∈ ws, 0 ≤ w) ∧ ws.sum = 1 ∧ (∃ w ∈ ws, w ≠ 0) ∧
      ws.length ≤ vals.length := by
    rcases hnp : npGet grid ((day : ℤ) - 1) i with _ | prev
    · rw [branchArgs_prev_none _ _ _ _ _ hnp] at hba
      cases hba
    · cases prev
      case DEAD =>
        rw [branchArgs_dead _ _ _ _ _ hnp] at hba
        cases hba
      case RECOVERED =>
        rw [branchArgs_rec _ _ _ _ _ hnp] at hba
        cases hba
      case SUSCEPTIBLE =>
        rw [branchArgs_sus _ _ _ _ _ hnp] at hba
        rcases hlook : npGet grid ((day : ℤ) - (EI_time : ℤ)) i with _ | lk
        · rw [branchSE_none _ _ _ _ hlook] at hba
          cases hba
        · by_cases hne : lk = Status.EXPOSED
          · subst hne
            rw [branchSE_exp _ _ _ _ hlook] at hba
            cases hba
            have hok := weightsSE2_ok (exposureOf cts grid day i) he
              (exposureOf_le_one _ _ _ _)
            exact ⟨hok.1, hok.2.1, hok.2.2, by simp [weightsSE2]⟩
          · rw [branchSE_notexp _ _ _ _ _ hlook hne] at hba
            cases hba
            have hok := weightsSE1_ok (exposureOf cts grid day i) he
              (exposureOf_le_one _ _ _ _)
            exact ⟨hok.1, hok.2.1, hok.2.2, by simp [weightsSE1]⟩
      case EXPOSED =>
        rw [branchArgs_exp _ _ _ _ _ hnp] at hba
        rcases hlook : npGet grid ((day : ℤ) - (EI_time : ℤ)) i with _ | lk
        · rw [branchSE_none _ _ _ _ hlook] at hba
          cases hba
        · by_cases hne : lk = Status.EXPOSED
          · subst hne
            rw [branchSE_exp _ _ _ _ hlook] at hba
            cases hba
            have hok := weightsSE2_ok (exposureOf cts grid day i) he
              (exposureOf_le_one _ _ _ _)
            exact ⟨hok.1, hok.2.1, hok.2.2, by simp [weightsSE2]⟩
          · rw [branchSE_notexp _ _ _ _ _ hlook hne] at hba
            cases hba
            have hok := weightsSE1_ok (exposureOf cts grid day i) he
              (exposureOf_le_one _ _ _ _)
            exact ⟨hok.1, hok.2.1, hok.2.2, by simp [weightsSE1]⟩
      case INFECTED =>
        rw [branchArgs_inf _ _ _ _ _ hnp] at hba
        cases hba
        have hio : (if lookbackIs grid day min_IR_time i .INFECTED
            then IR else 0) = IR ∨
            (if lookbackIs grid day min_IR_time i .INFECTED
            then IR else 0) = 0 := by
          by_cases hc : lookbackIs grid day min_IR_time i .INFECTED
          · rw [if_pos hc]
            exact Or.inl rfl
          · rw [if_neg hc]
            exact Or.inr rfl
        have hok := weightsI_ok _ hio
        exact ⟨hok.1, hok.2.1, hok.2.2, by simp [weightsI]⟩
      case HOSPITALISED =>
        rw [branchArgs_hosp _ _ _ _ _ hnp] at hba
        cases hba
        have hr1 : (if lookbackIs grid day min_HR_time i .HOSPITALISED
            then HR else 0) = HR ∨
            (if lookbackIs grid day min_HR_time i .HOSPITALISED
            then HR else 0) = 0 := by
          by_cases hc : lookbackIs grid day min_HR_time i .HOSPITALISED
          · rw [if_pos hc]
            exact Or.inl rfl
          · rw [if_neg hc]
            exact Or.inr rfl
        have hr2 : (if lookbackIs grid day min_HD_time i .HOSPITALISED
            then HDv else 0) = base_HD ∨
            (if lookbackIs grid day min_HD_time i .HOSPITALISED
            then HDv else 0) = 3 * base_HD ∨
            (if lookbackIs grid day min_HD_time i .HOSPITALISED
            then HDv else 0) = 0 := by
          by_cases hc : lookbackIs grid day min_HD_time i .HOSPITALISED
          · rw [if_pos hc]
            rcases hHD with rfl | rfl
            · exact Or.inl rfl
            · exact Or.inr (Or.inl rfl)
          · rw [if_neg hc]
            exact Or.inr (Or.inr rfl)
        have hok := weightsH_ok _ _ hr1 hr2
        exact ⟨hok.1, hok.2.1, hok.2.2, by simp [weightsH]⟩
  obtain ⟨ha, hb, hc, hlen⟩ := hmain
  exact ⟨ha, hb, hc, fun r => choices_isSome vals ws r hb hlen⟩

/-- Claim C8 witness: the INFECTED branch on a concrete grid (with no
recovery eligibility) hands the sampler weights summing to 1. -/
theorem claim_C8_weights_witness : (weightsI 0).sum = 1 :=
  (claim_C8_weights [[]] base_HD [[.INFECTED], [.SUSCEPTIBLE]] 1 0
    [.RECOVERED, .HOSPITALISED, .INFECTED] (weightsI 0)
    (Or.inl rfl) (by with_unfolding_all decide)
    (by with_unfolding_all decide)).2.1

/-- Claim C9, amended: `simulate` performs no validation of
`n_init_exposed`: when it exceeds the population size, the numpy slice
assignment silently clamps, every person starts EXPOSED, and (when the
rest of the run succeeds) a status grid is returned. -/
theorem claim_C9_clamps (nDays : ℕ) (families : List ℕ)
    (nInit maxN maxFreq : ℕ) (σ : ℕ → ℕ) (extO chO : ℕ → ℕ → ℕ) (fuel : ℕ)
    (g : Grid)
    (hσ : ∀ j, σ j < count_persons families)
    (hover : count_persons families ≤ nInit)
    (h : simulate nDays families nInit maxN maxFreq σ extO chO fuel =
      .ok g) :
    g.getD 0 [] = List.replicate (count_persons families) Status.EXPOSED := by
  obtain ⟨h1, cts, hext, hsim⟩ :=
    simulate_parts nDays families nInit maxN maxFreq σ extO chO fuel g h
  have hrow0 := simLoop_row_lt cts chO (count_persons families)
    (nDays - 1) 1 _ g hsim 0 (by omega)
  rw [hrow0]
  show initRow (count_persons families) nInit σ = _
  refine List.eq_replicate.2 ⟨initRow_length _ _ _, ?_⟩
  intro b hb
  rw [initRow] at hb
  obtain ⟨j, _, rfl⟩ := List.mem_map.1 hb
  rw [if_pos (lt_of_lt_of_le (hσ j) hover)]

/-- Claim C9 counterexample: with one person and `n_init_exposed = 2`
exceeding the population size, `simulate` does not reject: it returns a
status grid. -/
theorem claim_C9_counterexample :
    simulate 1 [1] 2 1 1 (fun j => j) (fun _ _ => 0) (fun _ _ => 0) 1 =
      .ok [[.EXPOSED]] ∧ count_persons [1] < 2 :=
  ⟨by with_unfolding_all decide, by decide⟩

/-- Claim C9 witness: the clamped initial row of the one-person run with
`n_init_exposed = 2` is all EXPOSED. -/
theorem claim_C9_clamps_witness :
    ([[Status.EXPOSED]] : Grid).getD 0 [] =
      List.replicate (count_persons [1]) Status.EXPOSED :=
  claim_C9_clamps 1 [1] 2 1 1 (fun _ => 0) (fun _ _ => 0) (fun _ _ => 0) 1
    [[.EXPOSED]] (fun _ => Nat.zero_lt_one) (by decide)
    (by with_unfolding_all decide)

/-- Claim C10 counterexample: with `max_freq = 0` and a draw sequence in
which person 0 draws one contact and an acceptable candidate, the pass
raises (`rd.randint(1, 0)` is an empty range): it does not complete
normally for every draw sequence. -/
theorem claim_C10_counterexample :
    assign_external_contacts (assign_family_ID_and_members [2]).2
      (assign_family_ID_and_members [2]).1 1 0 (fun _ _ => 1) 5 =
      Res.err := by
  with_unfolding_all decide

/-- Claim C10, amended: with `max_freq = 0` the pass can never add a
contact: whenever it does return normally, the contact lists are
returned unchanged (any accepted candidate raises instead). -/
theorem claim_C10_nofreq (cts : Contacts) (famIDs : List ℕ) (maxN : ℕ)
    (extO : ℕ → ℕ → ℕ) (fuel : ℕ) (cts2 : Contacts)
    (h : assign_external_contacts cts famIDs maxN 0 extO fuel = .ok cts2) :
    cts2 = cts :=
  extPersons_maxFreq0 extO famIDs maxN fuel (List.range cts.length) cts
    cts2 h

/-- Claim C10 witness: a normally-returning `max_freq = 0` pass (all
drawn contact counts zero) leaves the household lists unchanged. -/
theorem claim_C10_nofreq_witness :
    assign_external_contacts [[(1, Freq.inf)], [(0, Freq.inf)]] [0, 0] 2 0
      (fun _ _ => 0) 3 = Res.ok [[(1, Freq.inf)], [(0, Freq.inf)]] ∧
    ([[(1, Freq.inf)], [(0, Freq.inf)]] : Contacts) =
      [[(1, Freq.inf)], [(0, Freq.inf)]] := by
  have hrun : assign_external_contacts [[(1, Freq.inf)], [(0, Freq.inf)]]
      [0, 0] 2 0 (fun _ _ => 0) 3 =
      Res.ok [[(1, Freq.inf)], [(0, Freq.inf)]] := by decide
  exact ⟨hrun, claim_C10_nofreq _ _ _ _ _ _ hrun⟩

end SEIHRD
